import Mathlib

/-!
# Verification of the netdiff core against its specification

Shallow embedding of the netdiff core components (capture parser, diff
engine, query engine, session cache) from `src/core/`, together with
theorems settling the specification claims.

Conventions of the embedding:
* Python strings are Lean `String`s; Python lists are Lean `List`s.
* A Python `dict` (insertion ordered, value overwrite keeps the original
  position) is modelled as an association list `List (String × α)` with
  `odInsert` / `odGet`.
* `datetime` timestamps are modelled as an absolute timeline in seconds
  (`Int`); `(now - created).total_seconds() / 60 > 30` is equivalently
  `1800 < now - created` (exact for whole seconds).
* The masking normalizer (`DataMasker.mask_text` with a fixed category
  list) is a pure, deterministic text-to-text function; it is modelled as
  an abstract parameter `mask : String → String`, except for the guard
  `if not self.enabled or not text: return text`, which is kept
  explicitly (`maskText`).  A disabled masker (or one with no rules) is
  the identity function `id`.
-/

namespace NetDiff

set_option maxHeartbeats 1000000

/-! ## Python `dict` model (insertion-ordered association list) -/

/-- Python `d[k] = v`: overwrite in place if the key is present (keeping its
position), otherwise append at the end. -/
def odInsert {α : Type} (d : List (String × α)) (k : String) (v : α) :
    List (String × α) :=
  if d.any (fun p => p.1 == k) then
    d.map (fun p => if p.1 == k then (k, v) else p)
  else
    d ++ [(k, v)]

/-- Python `d.get(k)`. -/
def odGet {α : Type} (d : List (String × α)) (k : String) : Option α :=
  (d.find? (fun p => p.1 == k)).map Prod.snd

/-- Keys of the dict, in insertion order. -/
def odKeys {α : Type} (d : List (String × α)) : List String :=
  d.map Prod.fst

/-- Python dict comprehension `{key f x: x for x in l}`. -/
def odOfList {α : Type} (key : α → String) (l : List α) : List (String × α) :=
  l.foldl (fun d x => odInsert d (key x) x) []

theorem odGet_map_replace_of_ne {α : Type} (k' k : String) (v : α)
    (hk : ¬k = k') (t : List (String × α)) :
    odGet (t.map (fun p => if p.1 == k' then (k', v) else p)) k = odGet t k := by
  induction t with
  | nil => rfl
  | cons p t ih =>
    simp only [List.map_cons, odGet] at ih ⊢
    by_cases hp : p.1 = k'
    · rw [if_pos (by simpa using hp)]
      rw [List.find?_cons_of_neg _ (by simp [beq_iff_eq]; exact fun h => hk h.symm),
          List.find?_cons_of_neg _
            (by simp only [beq_iff_eq, hp]; exact fun h => hk h.symm)]
      exact ih
    · rw [if_neg (by simpa using hp)]
      by_cases hpk : p.1 = k
      · rw [List.find?_cons_of_pos _ (by simpa using hpk),
            List.find?_cons_of_pos _ (by simpa using hpk)]
      · rw [List.find?_cons_of_neg _ (by simpa using hpk),
            List.find?_cons_of_neg _ (by simpa using hpk)]
        exact ih

theorem odGet_odInsert {α : Type} (d : List (String × α)) (k' k : String) (v : α) :
    odGet (odInsert d k' v) k = if k = k' then some v else odGet d k := by
  unfold odInsert
  by_cases hany : d.any (fun p => p.1 == k') = true
  · simp only [hany, if_true]
    induction d with
    | nil => simp at hany
    | cons p t ih =>
      simp only [List.map_cons, odGet]
      by_cases hp : p.1 = k'
      · rw [if_pos (by simpa using hp)]
        by_cases hk : k = k'
        · rw [List.find?_cons_of_pos _ (by simp [beq_iff_eq, hk])]
          simp [hk]
        · rw [List.find?_cons_of_neg _ (by simp [beq_iff_eq]; exact fun h => hk h.symm),
              if_neg hk,
              List.find?_cons_of_neg _
                (by simp only [beq_iff_eq, hp]; exact fun h => hk h.symm)]
          exact odGet_map_replace_of_ne k' k v hk t
      · have hany' : t.any (fun p => p.1 == k') = true := by
          rcases List.any_eq_true.mp hany with ⟨q, hq, hqk⟩
          rcases List.mem_cons.mp hq with rfl | hq'
          · exact absurd (by simpa using hqk) hp
          · exact List.any_eq_true.mpr ⟨q, hq', hqk⟩
        rw [if_neg (by simpa using hp)]
        by_cases hpk : p.1 = k
        · have hk : ¬k = k' := fun h => hp (hpk.trans h)
          rw [List.find?_cons_of_pos _ (by simpa using hpk),
              List.find?_cons_of_pos _ (by simpa using hpk), if_neg hk]
        · rw [List.find?_cons_of_neg _ (by simpa using hpk),
              List.find?_cons_of_neg _ (by simpa using hpk)]
          exact ih hany'
  · rw [if_neg hany]
    have hnot : ∀ p ∈ d, ¬(p.1 = k') := by
      intro p hp hpk
      exact hany (List.any_eq_true.mpr ⟨p, hp, by simp [hpk]⟩)
    by_cases hk : k = k'
    · subst hk
      have hfd : d.find? (fun p => p.1 == k) = none := by
        apply List.find?_eq_none.mpr
        intro p hp
        simpa using hnot p hp
      simp [odGet, List.find?_append, hfd, List.find?]
    · rw [odGet, List.find?_append]
      have h1 : List.find? (fun p => p.1 == k) [(k', v)] = none := by
        have hne : ¬((k' : String) == k) = true := by
          simp [beq_iff_eq]; exact fun h => hk h.symm
        simp [List.find?, hne]
      cases hfind : d.find? (fun p => p.1 == k) <;> simp [odGet, h1, hfind, hk]

/-- `odGet` of a dict comprehension finds the *last* element of the list with
the given key (later entries overwrite earlier ones). -/
theorem odGet_odOfList_eq_last {α : Type} (key : α → String) (l : List α) (k : String) :
    odGet (odOfList key l) k = l.reverse.find? (fun x => key x == k) := by
  induction l using List.reverseRecOn with
  | nil => simp [odOfList, odGet, List.find?]
  | append_singleton t x ih =>
    have hfold : odOfList key (t ++ [x]) = odInsert (odOfList key t) (key x) x := by
      simp [odOfList, List.foldl_append]
    have hrev : (t ++ [x]).reverse = x :: t.reverse := by simp
    rw [hfold, odGet_odInsert, hrev]
    by_cases hk : k = key x
    · rw [if_pos hk, List.find?_cons_of_pos _ (by simp [beq_iff_eq, hk.symm])]
    · rw [if_neg hk,
        List.find?_cons_of_neg _ (by simp [beq_iff_eq]; exact fun h => hk h.symm), ih]

/-! ## Text utilities -/

/-- Worker for `splitLinesKeep`: `acc` is the reversed current line body. -/
def splitLinesKeepAux : List Char → List Char → List (List Char)
  | [], acc => if acc.isEmpty then [] else [acc.reverse]
  | '\r' :: '\n' :: rest, acc => (acc.reverse ++ ['\r', '\n']) :: splitLinesKeepAux rest []
  | '\r' :: rest, acc => (acc.reverse ++ ['\r']) :: splitLinesKeepAux rest []
  | '\n' :: rest, acc => (acc.reverse ++ ['\n']) :: splitLinesKeepAux rest []
  | c :: rest, acc => splitLinesKeepAux rest (c :: acc)

/-- Python `str.splitlines(keepends=True)` restricted to the line
terminators `\r\n`, `\r`, `\n` (the ones that occur in device captures);
each produced line keeps its terminator, and a final unterminated chunk is
kept as a line of its own. -/
def splitLinesKeep (cs : List Char) : List (List Char) :=
  splitLinesKeepAux cs []

/-- String version of `splitLinesKeep`. -/
def splitLinesKeepS (s : String) : List String :=
  (splitLinesKeep s.data).map (fun l => String.mk l)

/-- Case-insensitive-free literal substring test on char lists (Python
`sub in s`). -/
def listContainsSub (sub : List Char) : List Char → Bool
  | [] => sub.isEmpty
  | c :: rest => sub.isPrefixOf (c :: rest) || listContainsSub sub rest

/-- Python `sub in s` for strings. -/
def containsSub (s sub : String) : Bool :=
  listContainsSub sub.data s.data

/-- Python `any(kw in s for kw in kws)`. -/
def containsAny (s : String) (kws : List String) : Bool :=
  kws.any (fun kw => containsSub s kw)

/-- Worker for `splitOnNl`. -/
def splitNlAux : List Char → List Char → List String
  | [], acc => [String.mk acc.reverse]
  | '\n' :: rest, acc => String.mk acc.reverse :: splitNlAux rest []
  | c :: rest, acc => splitNlAux rest (c :: acc)

/-- Python `s.split('\n')` (no terminators kept; `''.split('\n') == ['']`). -/
def splitOnNl (s : String) : List String :=
  splitNlAux s.data []

/-- Python `str.startswith` (code-point based, like Python's). -/
def pyStartsWith (s pre : String) : Bool :=
  pre.data.isPrefixOf s.data

/-- Python `str.lower` (ASCII case folding suffices for the inputs at
hand). -/
def pyToLower (s : String) : String :=
  String.mk (s.data.map Char.toLower)

/-- Python `str.isspace` characters recognised by `str.strip()` and the
regex class `\s` (ASCII range). -/
def pyIsSpace (c : Char) : Bool :=
  c = ' ' || c = '\t' || c = '\n' || c = '\x0d' || c = '\x0b' || c = '\x0c'

/-- Python `str.strip()`. -/
def pyStrip (s : String) : String :=
  String.mk (((s.data.dropWhile pyIsSpace).reverse.dropWhile pyIsSpace).reverse)

/-! ## Capture parser (`src/core/parser.py`) -/

inductive LogType
  | pre
  | post
deriving Repr, DecidableEq

/-- `parser.CommandOutput`: a single command and its raw output. -/
structure CommandOutput where
  command : String
  output : String
  line_start : Nat
  line_end : Nat
deriving Repr, DecidableEq

/-- `parser.DeviceLog`. -/
structure DeviceLog where
  hostname : String
  change_number : String
  log_type : LogType
  commands : List CommandOutput
  file_path : String
deriving Repr, DecidableEq

/-- `DeviceLog.get_command_by_name`: first record whose trimmed name equals
the trimmed argument. -/
def DeviceLog.get_command_by_name (log : DeviceLog) (command_name : String) :
    Option CommandOutput :=
  log.commands.find? (fun cmd => pyStrip cmd.command == pyStrip command_name)

/-- `LogParser.COMMAND_PATTERN.match(line.strip())`: the regex
`^command:\s*(.+)$` (case-insensitive) applied to the stripped line.  After
stripping there is no trailing whitespace, so the regex matches exactly when
the lower-cased line starts with `command:` followed by at least one
character; the captured group, stripped, is everything after the colon with
surrounding whitespace removed. -/
def commandMatch (line : String) : Option String :=
  let s := pyStrip line
  if pyToLower (s.take 8) = "command:" ∧ 8 < s.length then
    some (pyStrip (s.drop 8))
  else
    none

/-- Fold state of the `parse_file` line loop. -/
structure ParseAcc where
  commands : List CommandOutput
  current : Option String
  out_lines : List String
  line_start : Nat
deriving Repr

/-- One iteration of the `parse_file` loop over `(line_num, line)`. -/
def parseStep (acc : ParseAcc) (p : Nat × String) : ParseAcc :=
  match commandMatch p.2 with
  | some name =>
    let commands :=
      match acc.current with
      | some c =>
        acc.commands ++ [⟨c, String.join acc.out_lines, acc.line_start, p.1 - 1⟩]
      | none => acc.commands
    ⟨commands, some name, [], p.1⟩
  | none =>
    match acc.current with
    | some _ => { acc with out_lines := acc.out_lines ++ [p.2] }
    | none => acc

/-- `LogParser.parse_file`, with the file content passed in as a string
(the file read is the I/O boundary). -/
def parse_file (content : String) (hostname change_number : String)
    (log_type : LogType) (file_path : String) : DeviceLog :=
  let lines := splitLinesKeepS content
  let numbered := lines.enum.map (fun p => (p.1 + 1, p.2))
  let acc := numbered.foldl parseStep ⟨[], none, [], 0⟩
  let commands :=
    match acc.current with
    | some c =>
      acc.commands ++ [⟨c, String.join acc.out_lines, acc.line_start, lines.length⟩]
    | none => acc.commands
  ⟨hostname, change_number, log_type, commands, file_path⟩

/-! ## `difflib.SequenceMatcher`

`differ.py` counts added/removed lines by iterating over
`difflib.unified_diff(pre_lines, post_lines, lineterm='')`, which is driven
by `SequenceMatcher(None, a, b)` (so `isjunk` is `None`, the junk set
`bjunk` is empty, and `autojunk` is on).  The matcher is embedded here
faithfully: the `b2j` index with the autojunk "popular element" purge, the
quadratic first phase of `find_longest_match` (the `j2len` dict is a total
function with default 0), the extension loops (with an empty junk set the
two junk-extension loops never fire), the recursive block collection of
`get_matching_blocks` (the Python queue+sort formulation produces the
blocks in range order, which the recursion yields directly), adjacent-block
collapsing, and `get_opcodes`. -/

namespace Difflib

structure MatchBlock where
  a : Nat
  b : Nat
  size : Nat
deriving Repr, DecidableEq

/-- Number of occurrences of `x` in `b`. -/
def countIn (b : List String) (x : String) : Nat :=
  (b.filter (fun y => y == x)).length

/-- autojunk (`SequenceMatcher.__chain_b`): in sequences of at least 200
elements, an element occurring more than `len(b) // 100 + 1` times is
"popular" and is dropped from `b2j`. -/
def isPopular (b : List String) (x : String) : Bool :=
  decide (200 ≤ b.length) && decide (b.length / 100 + 1 < countIn b x)

/-- `b2j.get(x, [])`: ascending list of the indices of `x` in `b` (empty for
popular elements). -/
def b2jGet (b : List String) (x : String) : List Nat :=
  if isPopular b x then []
  else (List.range b.length).filter (fun j => b.getD j "" == x)

/-- Candidate columns of one row of `find_longest_match`'s first phase:
`b2j.get(a[i], [])` restricted to `blo <= j < bhi` (the `continue`/`break`
guards; the index list is ascending, so the `break` acts as a filter). -/
def rowCands (b : List String) (blo bhi : Nat) (x : String) : List Nat :=
  (b2jGet b x).filter (fun j => decide (blo ≤ j) && decide (j < bhi))

/-- `j2len.get(j - 1, 0)` (for `j = 0` Python reads key `-1`, absent). -/
def prevLen (j2l : Nat → Nat) (j : Nat) : Nat :=
  if j = 0 then 0 else j2l (j - 1)

/-- One row `i` of the first phase of `find_longest_match`: rebuild the
`j2len` dict (reading the previous row's dict) and update the running best
block (`besti, bestj, bestsize = i-k+1, j-k+1, k` when `k > bestsize`). -/
def phase1Row (a b : List String) (blo bhi : Nat)
    (st : (Nat → Nat) × MatchBlock) (i : Nat) : (Nat → Nat) × MatchBlock :=
  let cands := rowCands b blo bhi (a.getD i "")
  let newj2l : Nat → Nat := fun j => if j ∈ cands then prevLen st.1 j + 1 else 0
  let best := cands.foldl
    (fun best j =>
      let k := prevLen st.1 j + 1
      if best.size < k then ⟨i + 1 - k, j + 1 - k, k⟩ else best)
    st.2
  (newj2l, best)

/-- The first (quadratic) phase of `find_longest_match`. -/
def phase1 (a b : List String) (alo ahi blo bhi : Nat) : MatchBlock :=
  ((List.range' alo (ahi - alo)).foldl (phase1Row a b blo bhi)
    (fun _ => 0, ⟨alo, blo, 0⟩)).2

/-- The backward extension loop (`while besti > alo and bestj > blo and
a[besti-1] == b[bestj-1]`; with the empty junk set the non-junk and junk
loops collapse into this single loop).  The fuel is an upper bound on the
iteration count; `m.a` strictly decreases. -/
def extendBack (a b : List String) (alo blo : Nat) :
    Nat → MatchBlock → MatchBlock
  | 0, m => m
  | fuel + 1, m =>
    if alo < m.a ∧ blo < m.b ∧ a.getD (m.a - 1) "" == b.getD (m.b - 1) "" then
      extendBack a b alo blo fuel ⟨m.a - 1, m.b - 1, m.size + 1⟩
    else m

/-- The forward extension loop (`while besti+bestsize < ahi and
bestj+bestsize < bhi and a[besti+bestsize] == b[bestj+bestsize]`). -/
def extendFwd (a b : List String) (ahi bhi : Nat) :
    Nat → MatchBlock → MatchBlock
  | 0, m => m
  | fuel + 1, m =>
    if m.a + m.size < ahi ∧ m.b + m.size < bhi ∧
        a.getD (m.a + m.size) "" == b.getD (m.b + m.size) "" then
      extendFwd a b ahi bhi fuel ⟨m.a, m.b, m.size + 1⟩
    else m

/-- `SequenceMatcher.find_longest_match(alo, ahi, blo, bhi)` with
`isjunk=None`.  The fuels `m.a` (at most `m.a - alo` backward steps) and
`ahi` (at most `ahi - (m.a + m.size)` forward steps) are sufficient. -/
def findLongestMatch (a b : List String) (alo ahi blo bhi : Nat) : MatchBlock :=
  let m0 := phase1 a b alo ahi blo bhi
  let m1 := extendBack a b alo blo m0.a m0
  extendFwd a b ahi bhi ahi m1

/-- Range bounds satisfied by the block `find_longest_match` returns. -/
def InBnds (alo ahi blo bhi : Nat) (m : MatchBlock) : Prop :=
  alo ≤ m.a ∧ blo ≤ m.b ∧ m.a + m.size ≤ ahi ∧ m.b + m.size ≤ bhi

theorem mem_rowCands {b : List String} {blo bhi : Nat} {x : String} {j : Nat} :
    j ∈ rowCands b blo bhi x ↔
      isPopular b x = false ∧ j < b.length ∧ b.getD j "" = x ∧
        blo ≤ j ∧ j < bhi := by
  unfold rowCands b2jGet
  cases hpop : isPopular b x with
  | true => simp [hpop]
  | false =>
    simp [hpop, List.mem_filter, List.mem_range, beq_iff_eq]
    tauto

theorem phase1Row_bounds (a b : List String) (alo ahi blo bhi : Nat)
    (i : Nat) (hi : alo ≤ i) (hi2 : i < ahi)
    (st : (Nat → Nat) × MatchBlock)
    (hJ : ∀ j, st.1 j ≤ i - alo ∧ st.1 j ≤ j + 1 - blo)
    (hB : InBnds alo ahi blo bhi st.2) :
    (∀ j, (phase1Row a b blo bhi st i).1 j ≤ (i + 1) - alo ∧
          (phase1Row a b blo bhi st i).1 j ≤ j + 1 - blo) ∧
    InBnds alo ahi blo bhi (phase1Row a b blo bhi st i).2 := by
  have hk : ∀ j, j ∈ rowCands b blo bhi (a.getD i "") →
      prevLen st.1 j + 1 ≤ (i + 1) - alo ∧ prevLen st.1 j + 1 ≤ j + 1 - blo := by
    intro j hj
    obtain ⟨-, -, -, hblo, -⟩ := mem_rowCands.mp hj
    unfold prevLen
    by_cases h0 : j = 0
    · subst h0; simp; omega
    · rw [if_neg h0]
      have h1 := (hJ (j - 1)).1
      have h2 := (hJ (j - 1)).2
      omega
  constructor
  · intro j
    show (if j ∈ rowCands b blo bhi (a.getD i "") then prevLen st.1 j + 1 else 0) ≤ _ ∧
         (if j ∈ rowCands b blo bhi (a.getD i "") then prevLen st.1 j + 1 else 0) ≤ _
    by_cases hj : j ∈ rowCands b blo bhi (a.getD i "")
    · rw [if_pos hj]; exact hk j hj
    · rw [if_neg hj]; omega
  · show InBnds alo ahi blo bhi
      ((rowCands b blo bhi (a.getD i "")).foldl _ st.2)
    apply List.foldlRecOn _ _ _ hB
    intro best hbest j hj
    obtain ⟨-, -, -, hblo, hbhi⟩ := mem_rowCands.mp hj
    obtain ⟨hk1, hk2⟩ := hk j hj
    obtain ⟨hb1, hb2, hb3, hb4⟩ := hbest
    show InBnds alo ahi blo bhi
      (if best.size < prevLen st.1 j + 1 then _ else best)
    by_cases hlt : best.size < prevLen st.1 j + 1
    · rw [if_pos hlt]
      refine ⟨show alo ≤ i + 1 - (prevLen st.1 j + 1) by omega,
        show blo ≤ j + 1 - (prevLen st.1 j + 1) by omega,
        show i + 1 - (prevLen st.1 j + 1) + (prevLen st.1 j + 1) ≤ ahi by omega,
        show j + 1 - (prevLen st.1 j + 1) + (prevLen st.1 j + 1) ≤ bhi by omega⟩
    · rw [if_neg hlt]; exact ⟨hb1, hb2, hb3, hb4⟩

theorem phase1_fold_bounds (a b : List String) (alo ahi blo bhi : Nat) :
    ∀ (n s : Nat) (st : (Nat → Nat) × MatchBlock),
      alo ≤ s → s + n ≤ ahi →
      (∀ j, st.1 j ≤ s - alo ∧ st.1 j ≤ j + 1 - blo) →
      InBnds alo ahi blo bhi st.2 →
      InBnds alo ahi blo bhi
        (((List.range' s n).foldl (phase1Row a b blo bhi) st).2) := by
  intro n
  induction n with
  | zero => intro s st _ _ _ hB; simpa using hB
  | succ n ih =>
    intro s st hs hsn hJ hB
    rw [List.range'_succ, List.foldl_cons]
    obtain ⟨hJ', hB'⟩ :=
      phase1Row_bounds a b alo ahi blo bhi s hs (by omega) st
        (by intro j; have := hJ j; constructor <;> omega) hB
    exact ih (s + 1) _ (by omega) (by omega)
      (by intro j; have := hJ' j; constructor <;> omega) hB'

theorem phase1_bounds (a b : List String) (alo ahi blo bhi : Nat)
    (h1 : alo ≤ ahi) (h2 : blo ≤ bhi) :
    InBnds alo ahi blo bhi (phase1 a b alo ahi blo bhi) := by
  unfold phase1
  exact phase1_fold_bounds a b alo ahi blo bhi (ahi - alo) alo
    (fun _ => 0, ⟨alo, blo, 0⟩) (le_refl alo) (by omega)
    (by intro j; constructor <;> simp)
    ⟨le_refl alo, le_refl blo, by simpa using h1, by simpa using h2⟩

theorem extendBack_bounds (a b : List String) (alo ahi blo bhi : Nat) :
    ∀ (fuel : Nat) (m : MatchBlock), InBnds alo ahi blo bhi m →
      InBnds alo ahi blo bhi (extendBack a b alo blo fuel m) := by
  intro fuel
  induction fuel with
  | zero => intro m hm; exact hm
  | succ fuel ih =>
    intro m hm
    show InBnds alo ahi blo bhi (if _ then _ else m)
    by_cases hc : alo < m.a ∧ blo < m.b ∧
        a.getD (m.a - 1) "" == b.getD (m.b - 1) ""
    · rw [if_pos hc]
      obtain ⟨hc1, hc2, -⟩ := hc
      obtain ⟨h1, h2, h3, h4⟩ := hm
      exact ih ⟨m.a - 1, m.b - 1, m.size + 1⟩
        ⟨show alo ≤ m.a - 1 by omega, show blo ≤ m.b - 1 by omega,
         show m.a - 1 + (m.size + 1) ≤ ahi by omega,
         show m.b - 1 + (m.size + 1) ≤ bhi by omega⟩
    · rw [if_neg hc]; exact hm

theorem extendFwd_bounds (a b : List String) (alo ahi blo bhi : Nat) :
    ∀ (fuel : Nat) (m : MatchBlock), InBnds alo ahi blo bhi m →
      InBnds alo ahi blo bhi (extendFwd a b ahi bhi fuel m) := by
  intro fuel
  induction fuel with
  | zero => intro m hm; exact hm
  | succ fuel ih =>
    intro m hm
    show InBnds alo ahi blo bhi (if _ then _ else m)
    by_cases hc : m.a + m.size < ahi ∧ m.b + m.size < bhi ∧
        a.getD (m.a + m.size) "" == b.getD (m.b + m.size) ""
    · rw [if_pos hc]
      obtain ⟨hc1, hc2, -⟩ := hc
      obtain ⟨h1, h2, h3, h4⟩ := hm
      exact ih ⟨m.a, m.b, m.size + 1⟩
        ⟨h1, h2, show m.a + (m.size + 1) ≤ ahi by omega,
         show m.b + (m.size + 1) ≤ bhi by omega⟩
    · rw [if_neg hc]; exact hm

theorem findLongestMatch_bounds (a b : List String) (alo ahi blo bhi : Nat)
    (h1 : alo ≤ ahi) (h2 : blo ≤ bhi) :
    InBnds alo ahi blo bhi (findLongestMatch a b alo ahi blo bhi) := by
  unfold findLongestMatch
  exact extendFwd_bounds a b alo ahi blo bhi _ _
    (extendBack_bounds a b alo ahi blo bhi _ _
      (phase1_bounds a b alo ahi blo bhi h1 h2))

/-- `SequenceMatcher.get_matching_blocks` before collapsing: the recursive
collection of maximal blocks over subranges.  (Python uses an explicit queue
and sorts the result; since left-subrange blocks precede the found block,
which precedes right-subrange blocks, the recursion yields the sorted list
directly.)  The recursion is on a fuel that dominates the `a`-range length
`ahi - alo`: by `findLongestMatch_bounds`, whenever a block of positive size
is found both recursive subranges are strictly shorter, so with initial fuel
`a.length` (= the initial range length) the fuel is never exhausted and the
`fuel = 0` branch is unreachable. -/
def matchingBlocksAux (a b : List String) :
    Nat → Nat → Nat → Nat → Nat → List MatchBlock
  | 0, _, _, _, _ => []
  | fuel + 1, alo, ahi, blo, bhi =>
    if alo < ahi ∧ blo < bhi then
      if 0 < (findLongestMatch a b alo ahi blo bhi).size then
        (if alo < (findLongestMatch a b alo ahi blo bhi).a ∧
            blo < (findLongestMatch a b alo ahi blo bhi).b then
          matchingBlocksAux a b fuel alo (findLongestMatch a b alo ahi blo bhi).a
            blo (findLongestMatch a b alo ahi blo bhi).b
        else []) ++
        [findLongestMatch a b alo ahi blo bhi] ++
        (if (findLongestMatch a b alo ahi blo bhi).a +
              (findLongestMatch a b alo ahi blo bhi).size < ahi ∧
            (findLongestMatch a b alo ahi blo bhi).b +
              (findLongestMatch a b alo ahi blo bhi).size < bhi then
          matchingBlocksAux a b fuel
            ((findLongestMatch a b alo ahi blo bhi).a +
              (findLongestMatch a b alo ahi blo bhi).size) ahi
            ((findLongestMatch a b alo ahi blo bhi).b +
              (findLongestMatch a b alo ahi blo bhi).size) bhi
        else [])
      else []
    else []

/-- The fuel is irrelevant as long as it dominates the range length, so the
`fuel = 0` branch of `matchingBlocksAux` is indeed unreachable from
`getMatchingBlocks`. -/
theorem matchingBlocksAux_fuel_irrel (a b : List String) :
    ∀ (f1 f2 alo ahi blo bhi : Nat), ahi - alo ≤ f1 → ahi - alo ≤ f2 →
      matchingBlocksAux a b f1 alo ahi blo bhi =
        matchingBlocksAux a b f2 alo ahi blo bhi := by
  intro f1
  induction f1 with
  | zero =>
    intro f2 alo ahi blo bhi h1 h2
    cases f2 with
    | zero => rfl
    | succ f2 =>
      show matchingBlocksAux a b 0 alo ahi blo bhi = _
      rw [matchingBlocksAux, matchingBlocksAux,
        if_neg (by intro h; omega)]
  | succ f1 ih =>
    intro f2 alo ahi blo bhi h1 h2
    cases f2 with
    | zero =>
      rw [matchingBlocksAux, matchingBlocksAux,
        if_neg (by intro h; omega)]
    | succ f2 =>
      rw [matchingBlocksAux, matchingBlocksAux]
      by_cases hg : alo < ahi ∧ blo < bhi
      · rw [if_pos hg, if_pos hg]
        by_cases hsz : 0 < (findLongestMatch a b alo ahi blo bhi).size
        · rw [if_pos hsz, if_pos hsz]
          obtain ⟨hb1, hb2, hb3, hb4⟩ :=
            findLongestMatch_bounds a b alo ahi blo bhi
              (Nat.le_of_lt hg.1) (Nat.le_of_lt hg.2)
          congr 1
          · congr 1
            by_cases hl : alo < (findLongestMatch a b alo ahi blo bhi).a ∧
                blo < (findLongestMatch a b alo ahi blo bhi).b
            · rw [if_pos hl, if_pos hl]
              exact ih f2 _ _ _ _ (by omega) (by omega)
            · rw [if_neg hl, if_neg hl]
          · by_cases hr : (findLongestMatch a b alo ahi blo bhi).a +
                  (findLongestMatch a b alo ahi blo bhi).size < ahi ∧
                (findLongestMatch a b alo ahi blo bhi).b +
                  (findLongestMatch a b alo ahi blo bhi).size < bhi
            · rw [if_pos hr, if_pos hr]
              exact ih f2 _ _ _ _ (by omega) (by omega)
            · rw [if_neg hr, if_neg hr]
        · rw [if_neg hsz, if_neg hsz]
      · rw [if_neg hg, if_neg hg]

/-- Sentinel append and adjacent-block collapsing of
`get_matching_blocks`. -/
def collapseBlocks (la lb : Nat) (blocks : List MatchBlock) : List MatchBlock :=
  let step := fun (acc : MatchBlock × List MatchBlock) (m2 : MatchBlock) =>
    let m1 := acc.1
    if m1.a + m1.size = m2.a ∧ m1.b + m1.size = m2.b then
      (⟨m1.a, m1.b, m1.size + m2.size⟩, acc.2)
    else
      (m2, if 0 < m1.size then acc.2 ++ [m1] else acc.2)
  let r := blocks.foldl step (⟨0, 0, 0⟩, [])
  (if 0 < r.1.size then r.2 ++ [r.1] else r.2) ++ [⟨la, lb, 0⟩]

/-- `SequenceMatcher.get_matching_blocks`. -/
def getMatchingBlocks (a b : List String) : List MatchBlock :=
  collapseBlocks a.length b.length
    (matchingBlocksAux a b a.length 0 a.length 0 b.length)

inductive Tag
  | replace
  | delete
  | insert
  | equal
deriving Repr, DecidableEq

structure Opcode where
  tag : Tag
  i1 : Nat
  i2 : Nat
  j1 : Nat
  j2 : Nat
deriving Repr, DecidableEq

/-- `SequenceMatcher.get_opcodes`. -/
def getOpcodes (a b : List String) : List Opcode :=
  let step := fun (acc : (Nat × Nat) × List Opcode) (m : MatchBlock) =>
    let i := acc.1.1
    let j := acc.1.2
    let ops₁ :=
      if i < m.a ∧ j < m.b then acc.2 ++ [⟨Tag.replace, i, m.a, j, m.b⟩]
      else if i < m.a then acc.2 ++ [⟨Tag.delete, i, m.a, j, m.b⟩]
      else if j < m.b then acc.2 ++ [⟨Tag.insert, i, m.a, j, m.b⟩]
      else acc.2
    let ops₂ :=
      if 0 < m.size then
        ops₁ ++ [⟨Tag.equal, m.a, m.a + m.size, m.b, m.b + m.size⟩]
      else ops₁
    ((m.a + m.size, m.b + m.size), ops₂)
  ((getMatchingBlocks a b).foldl step ((0, 0), [])).2

/-! ### On identical sequences the matcher finds the full diagonal match

Key facts: the `j2len` dict of the first phase is described by `chainLen`;
on identical sequences every chain ending at `(i, j)` is dominated by the
diagonal chain ending at `(min i j, min i j)`, which is processed no later;
hence the running best block always stays on the diagonal, and the two
extension loops then stretch a diagonal block to the full range. -/

/-- `chainLen a b blo bhi i j` is the value of `j2len[j]` after the first
phase has processed rows `0, ..., i-1` (for a call with `alo = 0`). -/
def chainLen (a b : List String) (blo bhi : Nat) : Nat → Nat → Nat
  | 0, _ => 0
  | i + 1, j =>
    if j ∈ rowCands b blo bhi (a.getD i "") then
      (if j = 0 then 0 else chainLen a b blo bhi i (j - 1)) + 1
    else 0

theorem cands_self {b : List String} {i j : Nat}
    (h : j ∈ rowCands b 0 b.length (b.getD i ""))
    (hi : i < b.length) : i ∈ rowCands b 0 b.length (b.getD i "") := by
  obtain ⟨hpop, -, -, -, -⟩ := mem_rowCands.mp h
  exact mem_rowCands.mpr ⟨hpop, hi, rfl, Nat.zero_le i, hi⟩

theorem cands_diag {b : List String} {i j : Nat}
    (h : j ∈ rowCands b 0 b.length (b.getD i "")) :
    j ∈ rowCands b 0 b.length (b.getD j "") := by
  obtain ⟨hpop, hjl, hval, -, -⟩ := mem_rowCands.mp h
  refine mem_rowCands.mpr ⟨?_, hjl, rfl, Nat.zero_le j, hjl⟩
  rw [hval]; exact hpop

/-- Chains ending left of the diagonal are dominated by the diagonal chain
in the same column (identical sequences). -/
theorem chainLen_le_diag_left (b : List String) :
    ∀ (j i : Nat), j ≤ i →
      chainLen b b 0 b.length (i + 1) j ≤
        chainLen b b 0 b.length (j + 1) j := by
  intro j
  induction j with
  | zero =>
    intro i _
    simp only [chainLen]
    by_cases h : 0 ∈ rowCands b 0 b.length (b.getD i "")
    · rw [if_pos h, if_pos (cands_diag h)]
      simp
    · rw [if_neg h]
      exact Nat.zero_le _
  | succ j ih =>
    intro i hji
    simp only [chainLen]
    by_cases h : j + 1 ∈ rowCands b 0 b.length (b.getD i "")
    · rw [if_pos h, if_pos (cands_diag h)]
      simp only [Nat.succ_ne_zero, if_false, Nat.add_sub_cancel]
      have hi1 : 1 ≤ i := by omega
      obtain ⟨i', rfl⟩ : ∃ i', i = i' + 1 := ⟨i - 1, by omega⟩
      exact Nat.succ_le_succ (ih i' (by omega))
    · rw [if_neg h]
      exact Nat.zero_le _

/-- Chains ending right of the diagonal are dominated by the diagonal chain
in the same row (identical sequences). -/
theorem chainLen_le_diag_right (b : List String) :
    ∀ (i j : Nat), i < j →
      chainLen b b 0 b.length (i + 1) j ≤
        chainLen b b 0 b.length (i + 1) i := by
  intro i
  induction i with
  | zero =>
    intro j hij
    simp only [chainLen]
    by_cases h : j ∈ rowCands b 0 b.length (b.getD 0 "")
    · have hlen : (0 : Nat) < b.length := by
        obtain ⟨-, hjl, -, -, -⟩ := mem_rowCands.mp h
        omega
      rw [if_pos h, if_pos (cands_self h hlen)]
      have hj0 : ¬j = 0 := by omega
      simp [hj0, chainLen]
    · rw [if_neg h]
      exact Nat.zero_le _
  | succ i ih =>
    intro j hij
    simp only [chainLen]
    by_cases h : j ∈ rowCands b 0 b.length (b.getD (i + 1) "")
    · have hlen : i + 1 < b.length := by
        obtain ⟨-, hjl, -, -, -⟩ := mem_rowCands.mp h
        omega
      rw [if_pos h, if_pos (cands_self h hlen)]
      have hj0 : ¬j = 0 := by omega
      simp only [hj0, if_false, Nat.succ_ne_zero, Nat.add_sub_cancel]
      exact Nat.succ_le_succ (ih (j - 1) (by omega))
    · rw [if_neg h]
      exact Nat.zero_le _

/-- The `j2len` component of the first-phase fold is `chainLen`. -/
theorem phase1_j2l_eq (a b : List String) (blo bhi : Nat) :
    ∀ m, (((List.range m).foldl (phase1Row a b blo bhi)
        (fun _ => 0, ⟨0, blo, 0⟩)).1 : Nat → Nat) =
      chainLen a b blo bhi m := by
  intro m
  induction m with
  | zero =>
    funext j
    simp [chainLen]
  | succ m ih =>
    rw [List.range_succ, List.foldl_append, List.foldl_cons, List.foldl_nil]
    funext j
    show (if j ∈ rowCands b blo bhi (a.getD m "") then
        prevLen ((List.range m).foldl (phase1Row a b blo bhi)
          (fun _ => 0, ⟨0, blo, 0⟩)).1 j + 1
      else 0) = chainLen a b blo bhi (m + 1) j
    rw [ih]
    simp only [chainLen, prevLen]

theorem rowCands_pairwise (b : List String) (blo bhi : Nat) (x : String) :
    (rowCands b blo bhi x).Pairwise (· < ·) := by
  unfold rowCands b2jGet
  cases isPopular b x
  · simp only [Bool.false_eq_true, if_false]
    exact ((List.pairwise_lt_range b.length).filter _).filter _
  · simp

/-- Size of the best block never decreases along a row. -/
theorem rowFold_size_mono (i : Nat) (j2l : Nat → Nat) (l : List Nat)
    (best : MatchBlock) :
    best.size ≤ (l.foldl (fun best j =>
      if best.size < prevLen j2l j + 1 then
        (⟨i + 1 - (prevLen j2l j + 1), j + 1 - (prevLen j2l j + 1),
          prevLen j2l j + 1⟩ : MatchBlock)
      else best) best).size := by
  induction l generalizing best with
  | nil => exact Nat.le_refl _
  | cons j0 l ih =>
    rw [List.foldl_cons]
    by_cases hc : best.size < prevLen j2l j0 + 1
    · rw [if_pos hc]
      exact Nat.le_trans (Nat.le_of_lt hc)
        (ih ⟨i + 1 - (prevLen j2l j0 + 1), j0 + 1 - (prevLen j2l j0 + 1),
          prevLen j2l j0 + 1⟩)
    · rw [if_neg hc]
      exact ih best

/-- Main row invariant on identical sequences: starting from a diagonal
best block that already dominates all diagonal chains of earlier rows, the
fold over (an ascending suffix of) the row's candidates keeps the best
block diagonal and makes it dominate this row's diagonal chain. -/
theorem phase1Row_fold_diag (b : List String) (i : Nat) (hi : i < b.length) :
    ∀ (l : List Nat) (best : MatchBlock),
      l.Pairwise (· < ·) →
      (∀ j ∈ l, j ∈ rowCands b 0 b.length (b.getD i "")) →
      best.a = best.b →
      (∀ j ∈ l, j < i →
        chainLen b b 0 b.length (i + 1) j ≤ best.size) →
      ((i ∉ l) → i ∈ rowCands b 0 b.length (b.getD i "") →
        chainLen b b 0 b.length (i + 1) i ≤ best.size) →
      ((l.foldl (fun best j =>
          if best.size < prevLen (chainLen b b 0 b.length i) j + 1 then
            (⟨i + 1 - (prevLen (chainLen b b 0 b.length i) j + 1),
              j + 1 - (prevLen (chainLen b b 0 b.length i) j + 1),
              prevLen (chainLen b b 0 b.length i) j + 1⟩ : MatchBlock)
          else best) best).a =
        (l.foldl (fun best j =>
          if best.size < prevLen (chainLen b b 0 b.length i) j + 1 then
            (⟨i + 1 - (prevLen (chainLen b b 0 b.length i) j + 1),
              j + 1 - (prevLen (chainLen b b 0 b.length i) j + 1),
              prevLen (chainLen b b 0 b.length i) j + 1⟩ : MatchBlock)
          else best) best).b) ∧
      ((i ∈ rowCands b 0 b.length (b.getD i "") →
        (i ∈ l ∨ chainLen b b 0 b.length (i + 1) i ≤ best.size) →
        chainLen b b 0 b.length (i + 1) i ≤
          (l.foldl (fun best j =>
            if best.size < prevLen (chainLen b b 0 b.length i) j + 1 then
              (⟨i + 1 - (prevLen (chainLen b b 0 b.length i) j + 1),
                j + 1 - (prevLen (chainLen b b 0 b.length i) j + 1),
                prevLen (chainLen b b 0 b.length i) j + 1⟩ : MatchBlock)
            else best) best).size)) := by
  intro l
  induction l with
  | nil =>
    intro best _ _ h1 _ h4
    refine ⟨h1, ?_⟩
    intro hc hd
    rcases hd with hd | hd
    · exact absurd hd (List.not_mem_nil i)
    · exact hd
  | cons j0 l ih =>
    intro best hpair hmem h1 h2 h4
    have hj0 : j0 ∈ rowCands b 0 b.length (b.getD i "") :=
      hmem j0 (List.mem_cons_self j0 l)
    have hlt : ∀ x ∈ l, j0 < x := (List.pairwise_cons.mp hpair).1
    have hpair' : l.Pairwise (· < ·) := (List.pairwise_cons.mp hpair).2
    have hmem' : ∀ j ∈ l, j ∈ rowCands b 0 b.length (b.getD i "") :=
      fun j hj => hmem j (List.mem_cons_of_mem j0 hj)
    -- the value the fold computes for candidate j0
    have hk : prevLen (chainLen b b 0 b.length i) j0 + 1 =
        chainLen b b 0 b.length (i + 1) j0 := by
      simp only [chainLen, if_pos hj0, prevLen]
    rw [List.foldl_cons]
    rcases Nat.lt_trichotomy j0 i with hcase | hcase | hcase
    · -- j0 < i: no update happens
      have hno : ¬best.size < prevLen (chainLen b b 0 b.length i) j0 + 1 := by
        rw [hk]
        exact Nat.not_lt.mpr (h2 j0 (List.mem_cons_self j0 l) hcase)
      rw [if_neg hno]
      have hij0 : ¬i = j0 := by omega
      obtain ⟨e1, e3⟩ := ih best hpair' hmem' h1
        (fun j hj hji => h2 j (List.mem_cons_of_mem j0 hj) hji)
        (fun hnl hc => h4 (fun hmem'' => by
          rcases List.mem_cons.mp hmem'' with h | h
          · exact hij0 h
          · exact hnl h) hc)
      refine ⟨e1, ?_⟩
      intro hc hd
      apply e3 hc
      rcases hd with hd | hd
      · rcases List.mem_cons.mp hd with h | h
        · exact absurd h hij0
        · exact Or.inl h
      · exact Or.inr hd
    · -- j0 = i: this is where the (diagonal) update may happen
      subst hcase
      by_cases hup : best.size < prevLen (chainLen b b 0 b.length j0) j0 + 1
      · rw [if_pos hup]
        have hdiag :
            chainLen b b 0 b.length (j0 + 1) j0 ≤
              prevLen (chainLen b b 0 b.length j0) j0 + 1 := by
          rw [hk]
        obtain ⟨e1, e3⟩ := ih
          ⟨j0 + 1 - (prevLen (chainLen b b 0 b.length j0) j0 + 1),
            j0 + 1 - (prevLen (chainLen b b 0 b.length j0) j0 + 1),
            prevLen (chainLen b b 0 b.length j0) j0 + 1⟩
          hpair' hmem' rfl
          (fun j hj hji => absurd (hlt j hj) (by omega))
          (fun _ _ => by
            show chainLen b b 0 b.length (j0 + 1) j0 ≤
              prevLen (chainLen b b 0 b.length j0) j0 + 1
            rw [hk])
        refine ⟨e1, ?_⟩
        intro hc _
        apply e3 hc
        right
        show chainLen b b 0 b.length (j0 + 1) j0 ≤
          prevLen (chainLen b b 0 b.length j0) j0 + 1
        rw [hk]
      · rw [if_neg hup]
        obtain ⟨e1, e3⟩ := ih best hpair' hmem' h1
          (fun j hj hji => absurd (hlt j hj) (by omega))
          (fun _ _ => by rw [← hk]; omega)
        refine ⟨e1, ?_⟩
        intro hc _
        apply e3 hc
        right
        rw [← hk]
        omega
    · -- i < j0: dominated by the diagonal chain, no update
      have hinl : i ∉ j0 :: l := by
        intro h
        rcases List.mem_cons.mp h with h | h
        · omega
        · exact absurd (hlt i h) (by omega)
      have hci : i ∈ rowCands b 0 b.length (b.getD i "") := cands_self hj0 hi
      have hd2 := chainLen_le_diag_right b i j0 hcase
      have hdom := h4 hinl hci
      have hno : ¬best.size < prevLen (chainLen b b 0 b.length i) j0 + 1 := by
        rw [hk]
        exact Nat.not_lt.mpr (Nat.le_trans hd2 hdom)
      rw [if_neg hno]
      have hinl' : i ∉ l := fun h => hinl (List.mem_cons_of_mem j0 h)
      obtain ⟨e1, e3⟩ := ih best hpair' hmem' h1
        (fun j hj hji => h2 j (List.mem_cons_of_mem j0 hj) hji)
        (fun _ _ => hdom)
      exact ⟨e1, fun hc _ => e3 hc (Or.inr hdom)⟩

/-- On identical sequences, after the rows `0, ..., m-1`, the best block of
the first phase is diagonal and its size dominates every processed row's
diagonal chain. -/
theorem phase1_self_diag (b : List String) :
    ∀ m, m ≤ b.length →
      (((List.range m).foldl (phase1Row b b 0 b.length)
          (fun _ => 0, ⟨0, 0, 0⟩)).2.a =
        ((List.range m).foldl (phase1Row b b 0 b.length)
          (fun _ => 0, ⟨0, 0, 0⟩)).2.b) ∧
      (∀ i, i < m → i ∈ rowCands b 0 b.length (b.getD i "") →
        chainLen b b 0 b.length (i + 1) i ≤
          ((List.range m).foldl (phase1Row b b 0 b.length)
            (fun _ => 0, ⟨0, 0, 0⟩)).2.size) := by
  intro m
  induction m with
  | zero =>
    intro _
    exact ⟨rfl, fun i hi => absurd hi (by omega)⟩
  | succ m ih =>
    intro hm
    obtain ⟨ih1, ih2⟩ := ih (by omega)
    rw [List.range_succ, List.foldl_append, List.foldl_cons, List.foldl_nil]
    have hrw := phase1_j2l_eq b b 0 b.length m
    -- the best-block component of one more row, with `j2len` rewritten
    have hshape :
        ((phase1Row b b 0 b.length
          ((List.range m).foldl (phase1Row b b 0 b.length)
            (fun _ => 0, ⟨0, 0, 0⟩)) m).2 : MatchBlock) =
        (rowCands b 0 b.length (b.getD m "")).foldl
          (fun best j =>
            if best.size < prevLen (((List.range m).foldl
                (phase1Row b b 0 b.length) (fun _ => 0, ⟨0, 0, 0⟩)).1) j + 1 then
              (⟨m + 1 - (prevLen (((List.range m).foldl
                  (phase1Row b b 0 b.length) (fun _ => 0, ⟨0, 0, 0⟩)).1) j + 1),
                j + 1 - (prevLen (((List.range m).foldl
                  (phase1Row b b 0 b.length) (fun _ => 0, ⟨0, 0, 0⟩)).1) j + 1),
                prevLen (((List.range m).foldl
                  (phase1Row b b 0 b.length) (fun _ => 0, ⟨0, 0, 0⟩)).1) j + 1⟩ :
                MatchBlock)
            else best)
          ((List.range m).foldl (phase1Row b b 0 b.length)
            (fun _ => 0, ⟨0, 0, 0⟩)).2 := rfl
    rw [hshape, hrw]
    have hmlt : m < b.length := by omega
    obtain ⟨e1, e3⟩ := phase1Row_fold_diag b m hmlt
      (rowCands b 0 b.length (b.getD m "")) _
      (rowCands_pairwise b 0 b.length _)
      (fun j hj => hj) ih1
      (fun j hj hji => by
        have hdl := chainLen_le_diag_left b j m (by omega)
        have hjd := cands_diag hj
        exact Nat.le_trans hdl (ih2 j hji hjd))
      (fun hnotin hin => absurd hin hnotin)
    refine ⟨e1, ?_⟩
    intro i hi hic
    have hmono := rowFold_size_mono m (chainLen b b 0 b.length m)
      (rowCands b 0 b.length (b.getD m "")) (((List.range m).foldl
        (phase1Row b b 0 b.length) (fun _ => 0, ⟨0, 0, 0⟩)).2)
    by_cases him : i = m
    · subst him
      exact e3 hic (Or.inl hic)
    · have hi' : i < m := by omega
      exact Nat.le_trans (ih2 i hi' hic) hmono

/-- The backward extension of a diagonal block on identical sequences slides
it down to the origin. -/
theorem extendBack_self (b : List String) :
    ∀ (fuel : Nat) (m : MatchBlock), m.a = m.b → m.a ≤ fuel →
      extendBack b b 0 0 fuel m = ⟨0, 0, m.a + m.size⟩ := by
  intro fuel
  induction fuel with
  | zero =>
    intro m hd hf
    obtain ⟨x, y, z⟩ := m
    simp only at hd hf
    obtain rfl : x = 0 := by omega
    subst hd
    simp [extendBack]
  | succ fuel ih =>
    intro m hd hf
    obtain ⟨x, y, z⟩ := m
    simp only at hd hf
    subst hd
    show extendBack b b 0 0 (fuel + 1) ⟨x, x, z⟩ = _
    by_cases hx : 0 < x
    · have hcond : 0 < (⟨x, x, z⟩ : MatchBlock).a ∧ 0 < (⟨x, x, z⟩ : MatchBlock).b ∧
          b.getD ((⟨x, x, z⟩ : MatchBlock).a - 1) "" ==
            b.getD ((⟨x, x, z⟩ : MatchBlock).b - 1) "" := by
        exact ⟨hx, hx, beq_self_eq_true _⟩
      simp only [extendBack]
      rw [if_pos hcond]
      have hrec := ih ⟨x - 1, x - 1, z + 1⟩ rfl (by show x - 1 ≤ fuel; omega)
      rw [hrec]
      show (⟨0, 0, x - 1 + (z + 1)⟩ : MatchBlock) = ⟨0, 0, x + z⟩
      congr 1
      omega
    · have hx0 : x = 0 := by omega
      subst hx0
      simp only [extendBack]
      rw [if_neg (by intro h; exact absurd h.1 (by omega))]
      show (⟨0, 0, z⟩ : MatchBlock) = ⟨0, 0, 0 + z⟩
      congr 1
      omega

/-- The forward extension of an origin block on identical sequences grows it
to the full length. -/
theorem extendFwd_self (b : List String) :
    ∀ (fuel : Nat) (z : Nat), z ≤ b.length → b.length ≤ fuel + z →
      extendFwd b b b.length b.length fuel ⟨0, 0, z⟩ = ⟨0, 0, b.length⟩ := by
  intro fuel
  induction fuel with
  | zero =>
    intro z h1 h2
    obtain rfl : z = b.length := by omega
    simp [extendFwd]
  | succ fuel ih =>
    intro z h1 h2
    by_cases hz : z < b.length
    · have hcond : (⟨0, 0, z⟩ : MatchBlock).a + (⟨0, 0, z⟩ : MatchBlock).size < b.length ∧
          (⟨0, 0, z⟩ : MatchBlock).b + (⟨0, 0, z⟩ : MatchBlock).size < b.length ∧
          b.getD ((⟨0, 0, z⟩ : MatchBlock).a + (⟨0, 0, z⟩ : MatchBlock).size) "" ==
            b.getD ((⟨0, 0, z⟩ : MatchBlock).b + (⟨0, 0, z⟩ : MatchBlock).size) "" := by
        refine ⟨by simpa using hz, by simpa using hz, beq_self_eq_true _⟩
      simp only [extendFwd]
      rw [if_pos hcond]
      exact ih (z + 1) (by omega) (by omega)
    · obtain rfl : z = b.length := by omega
      simp only [extendFwd]
      rw [if_neg (by intro h; exact absurd h.1 (by simp))]

/-- On identical sequences `find_longest_match` over the full range returns
the full diagonal match. -/
theorem findLongestMatch_self (b : List String) :
    findLongestMatch b b 0 b.length 0 b.length = ⟨0, 0, b.length⟩ := by
  have hph : phase1 b b 0 b.length 0 b.length =
      ((List.range b.length).foldl (phase1Row b b 0 b.length)
        (fun _ => 0, ⟨0, 0, 0⟩)).2 := by
    unfold phase1
    rw [Nat.sub_zero, ← List.range_eq_range']
  have hdiag := (phase1_self_diag b b.length (Nat.le_refl _)).1
  have hbnd := phase1_bounds b b 0 b.length 0 b.length
    (Nat.zero_le _) (Nat.zero_le _)
  rw [hph] at hbnd
  show extendFwd b b b.length b.length b.length
    (extendBack b b 0 0 (phase1 b b 0 b.length 0 b.length).a
      (phase1 b b 0 b.length 0 b.length)) = ⟨0, 0, b.length⟩
  rw [hph]
  rw [extendBack_self b _ _ hdiag (Nat.le_refl _)]
  obtain ⟨-, -, hb3, -⟩ := hbnd
  exact extendFwd_self b b.length _ (by omega) (by omega)

/-! ### Opcode extraction -/

/-- Python slice `l[i1:i2]`. -/
def slice (l : List String) (i1 i2 : Nat) : List String :=
  (l.drop i1).take (i2 - i1)

/-- Added-line count of the `differ.py` loop over
`difflib.unified_diff(pre_lines, post_lines, lineterm='')`: the `+`-prefixed
lines are exactly the post-side lines of `insert`/`replace` opcodes (every
non-`equal` opcode lies in exactly one group of `get_grouped_opcodes`, so
context grouping never drops one), and the loop skips lines starting with
`+++` — so a post line itself starting with `++` is not counted. -/
def countAdded (b : List String) (ops : List Opcode) : Nat :=
  (ops.map (fun op =>
    if op.tag = Tag.insert ∨ op.tag = Tag.replace then
      ((slice b op.j1 op.j2).filter (fun l => !pyStartsWith l "++")).length
    else 0)).sum

/-- Removed-line count, dually (`-` lines, skipping `---`). -/
def countRemoved (a : List String) (ops : List Opcode) : Nat :=
  (ops.map (fun op =>
    if op.tag = Tag.delete ∨ op.tag = Tag.replace then
      ((slice a op.i1 op.i2).filter (fun l => !pyStartsWith l "--")).length
    else 0)).sum

theorem matchingBlocksAux_self (b : List String) :
    matchingBlocksAux b b b.length 0 b.length 0 b.length =
      if 0 < b.length then [⟨0, 0, b.length⟩] else [] := by
  by_cases hn : 0 < b.length
  · rw [if_pos hn]
    have hfl := findLongestMatch_self b
    obtain ⟨n, hb⟩ : ∃ n, b.length = n + 1 := ⟨b.length - 1, by omega⟩
    rw [hb] at hfl ⊢
    rw [matchingBlocksAux, if_pos ⟨Nat.succ_pos n, Nat.succ_pos n⟩, hfl]
    rw [if_pos (show 0 < (⟨0, 0, n + 1⟩ : MatchBlock).size from Nat.succ_pos n)]
    rw [if_neg (show ¬(0 < (⟨0, 0, n + 1⟩ : MatchBlock).a ∧
        0 < (⟨0, 0, n + 1⟩ : MatchBlock).b) by simp)]
    rw [if_neg (show ¬((⟨0, 0, n + 1⟩ : MatchBlock).a +
          (⟨0, 0, n + 1⟩ : MatchBlock).size < n + 1 ∧
        (⟨0, 0, n + 1⟩ : MatchBlock).b +
          (⟨0, 0, n + 1⟩ : MatchBlock).size < n + 1) by simp)]
    rfl
  · have hn0 : b.length = 0 := by omega
    rw [if_neg hn, hn0]
    rfl

/-- On identical line lists the opcodes are a single `equal` (or nothing for
empty input). -/
theorem getOpcodes_self (L : List String) :
    getOpcodes L L =
      if 0 < L.length then [⟨Tag.equal, 0, L.length, 0, L.length⟩] else [] := by
  unfold getOpcodes getMatchingBlocks
  rw [matchingBlocksAux_self]
  by_cases hn : 0 < L.length
  · rw [if_pos hn, if_pos hn]
    simp [collapseBlocks, hn, Nat.lt_irrefl]
  · rw [if_neg hn, if_neg hn]
    simp [collapseBlocks, hn]

/-- Diffing a line list against itself counts no added and no removed
lines. -/
theorem counts_self (L : List String) :
    countAdded L (getOpcodes L L) = 0 ∧ countRemoved L (getOpcodes L L) = 0 := by
  rw [getOpcodes_self]
  by_cases hn : 0 < L.length
  · rw [if_pos hn]
    constructor <;> simp [countAdded, countRemoved]
  · rw [if_neg hn]
    constructor <;> simp [countAdded, countRemoved]

/-- `find_longest_match` of the sentinel `['']` against a list of nonempty
lines finds nothing. -/
theorem findLongestMatch_empty_vs (L : List String)
    (_hne : L ≠ []) (hnl : ∀ l ∈ L, l ≠ "") :
    findLongestMatch [""] L 0 1 0 L.length = ⟨0, 0, 0⟩ := by
  have hget : ∀ j, j < L.length → L.getD j "" ≠ "" := by
    intro j hj
    rw [List.getD_eq_getElem L "" hj]
    exact hnl _ (List.getElem_mem hj)
  have hcands : rowCands L 0 L.length (([""] : List String).getD 0 "") = [] := by
    show rowCands L 0 L.length "" = []
    unfold rowCands b2jGet
    cases hpop : isPopular L ""
    · simp only [Bool.false_eq_true, if_false]
      have h1 : List.filter (fun j => L.getD j "" == "") (List.range L.length) = [] :=
        List.filter_eq_nil_iff.mpr (fun j hj => by
          simp only [beq_iff_eq]
          exact fun h => hget j (List.mem_range.mp hj) h)
      rw [h1]
      rfl
    · simp
  have hphase : phase1 [""] L 0 1 0 L.length = ⟨0, 0, 0⟩ := by
    unfold phase1
    show ((phase1Row [""] L 0 L.length (fun _ => 0, ⟨0, 0, 0⟩) 0)).2 = _
    show (rowCands L 0 L.length (([""] : List String).getD 0 "")).foldl _ _ = _
    rw [hcands]
    rfl
  show extendFwd [""] L 1 L.length 1
    (extendBack [""] L 0 0 (phase1 [""] L 0 1 0 L.length).a
      (phase1 [""] L 0 1 0 L.length)) = ⟨0, 0, 0⟩
  rw [hphase]
  show extendFwd [""] L 1 L.length 1 ⟨0, 0, 0⟩ = ⟨0, 0, 0⟩
  simp only [extendFwd]
  rw [if_neg]
  intro h
  obtain ⟨-, h2, h3⟩ := h
  exact hget 0 (by simpa using h2) (by simpa using (beq_iff_eq.mp h3).symm)

/-- Opcodes of the sentinel `['']` against nonempty lines: one `replace`. -/
theorem getOpcodes_empty_vs (L : List String)
    (hne : L ≠ []) (hnl : ∀ l ∈ L, l ≠ "") :
    getOpcodes [""] L = [⟨Tag.replace, 0, 1, 0, L.length⟩] := by
  have hn : 0 < L.length := List.length_pos.mpr hne
  unfold getOpcodes getMatchingBlocks
  have hlen : ([""] : List String).length = 1 := rfl
  rw [hlen]
  have hblk : matchingBlocksAux [""] L 1 0 1 0 L.length = [] := by
    rw [matchingBlocksAux]
    rw [if_pos ⟨Nat.one_pos, hn⟩, findLongestMatch_empty_vs L hne hnl]
    rw [if_neg (by simp)]
  rw [hblk]
  simp [collapseBlocks, hn, Nat.lt_irrefl]

/-- The per-opcode counts of the sentinel-versus-output diff: every output
line not starting with `++` is counted as added, and the single empty
sentinel pre-line is counted as removed. -/
theorem counts_empty_vs (L : List String) (hne : L ≠ [])
    (hnl : ∀ l ∈ L, l ≠ "")
    (hpp : ∀ l ∈ L, pyStartsWith l "++" = false) :
    countAdded L (getOpcodes [""] L) = L.length ∧
    countRemoved [""] (getOpcodes [""] L) = 1 := by
  rw [getOpcodes_empty_vs L hne hnl]
  constructor
  · simp only [countAdded, List.map_cons, List.map_nil, List.sum_cons,
      List.sum_nil, Nat.add_zero]
    rw [if_pos (Or.inr trivial)]
    have hsl : slice L 0 L.length = L := by
      simp [slice]
    rw [hsl, List.filter_eq_self.mpr]
    intro l hl
    simp [hpp l hl]
  · simp only [countRemoved, List.map_cons, List.map_nil, List.sum_cons,
      List.sum_nil, Nat.add_zero]
    rw [if_pos (Or.inr trivial)]
    rfl

end Difflib

/-! ## Diff engine (`src/core/differ.py`)

`CommandDiff.diff_html` (the `difflib.HtmlDiff` side-by-side table) is pure
presentation and is not consulted by any claim; it is elided from the
embedding. -/

structure CommandDiff where
  command : String
  has_changes : Bool
  pre_output : String
  post_output : String
  added_lines : Nat
  removed_lines : Nat
  changed_lines : Nat
deriving Repr, DecidableEq

structure DeviceDiff where
  hostname : String
  change_number : String
  command_diffs : List CommandDiff
  total_commands : Nat
  commands_with_changes : Nat
  total_added : Nat
  total_removed : Nat
  total_changed : Nat
deriving Repr, DecidableEq

/-- `DataMasker.mask_text` for a fixed category list: the regex substitution
cascade is a pure function (`mask`); the guard
`if not self.enabled or not text: return text` is kept explicitly.
A disabled masker, or one whose rules never match, has `mask = id`. -/
def maskText (mask : String → String) (s : String) : String :=
  if s.isEmpty then s else mask s

/-- The line lists `generate_command_diff` hands to the matcher: the masked
text split with `splitlines(keepends=True)`, with `['']` substituted for an
empty result so empty outputs are still comparable. -/
def diffLines (mask : String → String) (s : String) : List String :=
  let lines := splitLinesKeepS (maskText mask s)
  if lines.isEmpty then [""] else lines

/-- The `added` counter of `generate_command_diff`: the `+`-count of the
`unified_diff` loop over the two line lists. -/
def cmdDiffAdded (mask : String → String) (p q : String) : Nat :=
  Difflib.countAdded (diffLines mask q)
    (Difflib.getOpcodes (diffLines mask p) (diffLines mask q))

/-- The `removed` counter of `generate_command_diff`. -/
def cmdDiffRemoved (mask : String → String) (p q : String) : Nat :=
  Difflib.countRemoved (diffLines mask p)
    (Difflib.getOpcodes (diffLines mask p) (diffLines mask q))

/-- `DiffGenerator.generate_command_diff`: mask both texts, split into
lines (with the `['']` guard), count `+`/`-` lines of the unified diff, and
assemble the record with `has_changes = added > 0 or removed > 0` and
`changed = min(added, removed)`. -/
def generate_command_diff (mask : String → String)
    (command pre_output post_output : String) : CommandDiff :=
  ⟨command,
    decide (0 < cmdDiffAdded mask pre_output post_output) ||
      decide (0 < cmdDiffRemoved mask pre_output post_output),
    maskText mask pre_output, maskText mask post_output,
    cmdDiffAdded mask pre_output post_output,
    cmdDiffRemoved mask pre_output post_output,
    min (cmdDiffAdded mask pre_output post_output)
      (cmdDiffRemoved mask pre_output post_output)⟩

theorem generate_command_diff_added (mask : String → String)
    (command p q : String) :
    (generate_command_diff mask command p q).added_lines =
      cmdDiffAdded mask p q := rfl

theorem generate_command_diff_removed (mask : String → String)
    (command p q : String) :
    (generate_command_diff mask command p q).removed_lines =
      cmdDiffRemoved mask p q := rfl

theorem generate_command_diff_hasChanges (mask : String → String)
    (command p q : String) :
    (generate_command_diff mask command p q).has_changes =
      (decide (0 < cmdDiffAdded mask p q) ||
       decide (0 < cmdDiffRemoved mask p q)) := by
  unfold generate_command_diff
  rfl

/-- `DiffGenerator.generate_device_diff`.  `sorted(set(pre) | set(post))`
over the two dicts' keys is the strictly ascending enumeration of the union
of the command names; it is computed here as an insertion sort of the
deduplicated concatenation, which yields exactly that list. -/
def generate_device_diff (mask : String → String)
    (pre_log post_log : DeviceLog) : DeviceDiff :=
  let pre_commands := odOfList CommandOutput.command pre_log.commands
  let post_commands := odOfList CommandOutput.command post_log.commands
  let all_commands :=
    ((odKeys pre_commands ++ odKeys post_commands).dedup).insertionSort (· ≤ ·)
  let command_diffs := all_commands.map (fun command =>
    let pre_output :=
      match odGet pre_commands command with
      | some c => c.output
      | none => ""
    let post_output :=
      match odGet post_commands command with
      | some c => c.output
      | none => ""
    generate_command_diff mask command pre_output post_output)
  let changed := command_diffs.filter (fun cd => cd.has_changes)
  ⟨pre_log.hostname, pre_log.change_number, command_diffs,
    all_commands.length, changed.length,
    (changed.map (fun cd => cd.added_lines)).sum,
    (changed.map (fun cd => cd.removed_lines)).sum,
    (changed.map (fun cd => cd.changed_lines)).sum⟩

/-! ### Facts about `splitlines(keepends=True)` -/

/-- `splitlines(keepends=True)` never produces an empty line. -/
theorem splitLinesKeepAux_ne_nil :
    ∀ (cs acc : List Char), ∀ l ∈ splitLinesKeepAux cs acc, l ≠ [] := by
  intro cs acc
  induction cs, acc using splitLinesKeepAux.induct with
  | case1 acc hacc =>
    intro l hl
    rw [splitLinesKeepAux.eq_1, if_pos hacc] at hl
    exact absurd hl (List.not_mem_nil l)
  | case2 acc hacc =>
    intro l hl
    rw [splitLinesKeepAux.eq_1, if_neg hacc] at hl
    have := List.mem_singleton.mp hl
    subst this
    intro h
    rw [List.reverse_eq_nil_iff] at h
    subst h
    simp at hacc
  | case3 rest acc ih =>
    intro l hl
    rw [splitLinesKeepAux.eq_2] at hl
    rcases List.mem_cons.mp hl with rfl | hl
    · simp
    · exact ih l hl
  | case4 rest acc hg ih =>
    intro l hl
    rw [splitLinesKeepAux.eq_3 _ _ hg] at hl
    rcases List.mem_cons.mp hl with rfl | hl
    · simp
    · exact ih l hl
  | case5 rest acc ih =>
    intro l hl
    rw [splitLinesKeepAux.eq_4] at hl
    rcases List.mem_cons.mp hl with rfl | hl
    · simp
    · exact ih l hl
  | case6 c rest acc h1 h2 h3 ih =>
    intro l hl
    rw [splitLinesKeepAux.eq_5 _ _ _ h1 h2 h3] at hl
    exact ih l hl

/-- `splitlines(keepends=True)` of nonempty input is nonempty. -/
theorem splitLinesKeepAux_ne_nil_of_ne :
    ∀ (cs acc : List Char), (cs ≠ [] ∨ acc ≠ []) →
      splitLinesKeepAux cs acc ≠ [] := by
  intro cs acc
  induction cs, acc using splitLinesKeepAux.induct with
  | case1 acc hacc =>
    intro h
    rcases h with h | h
    · exact absurd rfl h
    · rw [List.isEmpty_iff] at hacc
      exact absurd hacc h
  | case2 acc hacc =>
    intro _
    rw [splitLinesKeepAux.eq_1, if_neg hacc]
    simp
  | case3 rest acc ih =>
    intro _
    rw [splitLinesKeepAux.eq_2]
    simp
  | case4 rest acc hg ih =>
    intro _
    rw [splitLinesKeepAux.eq_3 _ _ hg]
    simp
  | case5 rest acc ih =>
    intro _
    rw [splitLinesKeepAux.eq_4]
    simp
  | case6 c rest acc h1 h2 h3 ih =>
    intro _
    rw [splitLinesKeepAux.eq_5 _ _ _ h1 h2 h3]
    exact ih (Or.inr (by simp))

theorem splitLinesKeepS_lines_ne_empty (s : String) :
    ∀ l ∈ splitLinesKeepS s, l ≠ "" := by
  intro l hl
  unfold splitLinesKeepS splitLinesKeep at hl
  rcases List.mem_map.mp hl with ⟨cs, hcs, rfl⟩
  intro h
  have hcs0 : cs = [] := by
    have hd := congrArg String.data h
    simpa using hd
  exact splitLinesKeepAux_ne_nil s.data [] cs hcs hcs0

theorem splitLinesKeepS_ne_nil (s : String) (h : s ≠ "") :
    splitLinesKeepS s ≠ [] := by
  unfold splitLinesKeepS splitLinesKeep
  intro hm
  rw [List.map_eq_nil_iff] at hm
  refine splitLinesKeepAux_ne_nil_of_ne s.data [] (Or.inl ?_) hm
  intro hd
  apply h
  cases s with
  | mk data =>
    have hdd : data = [] := hd
    subst hdd
    rfl

theorem maskText_id (s : String) : maskText id s = s := by
  unfold maskText
  split <;> rfl

/-! ## Session cache (`src/core/memory_storage.py`)

`AnalysisSession` is restricted to the fields the `SessionManager` logic
reads (`session_id`, `change_number`, `created_at`) plus the device map as
a hostname list (for `list_sessions`' `device_count`).  The payload written
once by `populate_session` (summaries, diffs, logs) is never consulted by
the manager and is elided.  `datetime.now()` and `uuid.uuid4()` are
effects: the timestamp (whole seconds on an absolute timeline) and the
fresh id are passed in as arguments.  The `OrderedDict` is the same
association-list model as the Python dicts above, front = oldest. -/

structure AnalysisSession where
  session_id : String
  change_number : String
  created_at : Int
  devices : List String := []
deriving Repr, DecidableEq

abbrev SessionState := List (String × AnalysisSession)

def MAX_SESSIONS : Nat := 100

def SESSION_TTL_SECONDS : Int := 1800

/-- `(now - session.created_at).total_seconds() / 60 > 30`, exactly
`now - created_at > 1800` for whole seconds. -/
def sessionExpired (now : Int) (s : AnalysisSession) : Bool :=
  decide (SESSION_TTL_SECONDS < now - s.created_at)

/-- `while len(self._sessions) > self.MAX_SESSIONS:
self._sessions.popitem(last=False)`: popping from the front until at/under
the cap drops exactly the first `len - MAX_SESSIONS` (oldest) entries. -/
def popWhileOver (st : SessionState) : SessionState :=
  st.drop (st.length - MAX_SESSIONS)

/-- `SessionManager._cleanup_old_sessions`: delete every expired session
(order preserved), then evict from the front while over capacity. -/
def cleanup_old_sessions (now : Int) (st : SessionState) : SessionState :=
  popWhileOver (st.filter (fun p => !sessionExpired now p.2))

/-- `SessionManager.create_session`: cleanup, then insert the new session
as most recently used. -/
def create_session (session_id change_number : String) (now : Int)
    (st : SessionState) : SessionState :=
  odInsert (cleanup_old_sessions now st) session_id
    ⟨session_id, change_number, now, []⟩

/-- `SessionManager.get_session`: the looked-up session and the new state
(a hit is moved to the end, most recently used; the TTL field
`created_at` is untouched). -/
def get_session (st : SessionState) (session_id : String) :
    Option AnalysisSession × SessionState :=
  match st.find? (fun p => p.1 == session_id) with
  | none => (none, st)
  | some e => (some e.2, st.eraseP (fun p => p.1 == session_id) ++ [e])

/-- `SessionManager.get_session_by_change`: scan the values in reverse
current order, first match wins. -/
def get_session_by_change (st : SessionState) (change_number : String) :
    Option AnalysisSession :=
  (st.reverse.find? (fun p => p.2.change_number == change_number)).map Prod.snd

/-- `SessionManager.remove_session`. -/
def remove_session (st : SessionState) (session_id : String) :
    Bool × SessionState :=
  if st.any (fun p => p.1 == session_id) then
    (true, st.filter (fun p => !(p.1 == session_id)))
  else (false, st)

/-- `SessionManager.list_sessions`: `(session_id, change_number,
created_at, device_count)` per session, in current order. -/
def list_sessions (st : SessionState) : List (String × String × Int × Nat) :=
  st.map (fun p => (p.2.session_id, p.2.change_number, p.2.created_at,
    p.2.devices.length))

/-- State effect of a sequence of `get_session` calls. -/
def applyGets (ids : List String) (st : SessionState) : SessionState :=
  ids.foldl (fun st sid => (get_session st sid).2) st

/-- A batch of `create_session` calls `(id, change_number, now)`, oldest
first. -/
def createMany (creates : List (String × String × Int)) (st : SessionState) :
    SessionState :=
  creates.foldl (fun st c => create_session c.1 c.2.1 c.2.2 st) st

/-- The entry a create inserts. -/
def mkEntry (c : String × String × Int) : String × AnalysisSession :=
  (c.1, ⟨c.1, c.2.1, c.2.2, []⟩)

/-! ### Facts about the session cache -/

theorem createMany_append (L : List (String × String × Int))
    (c : String × String × Int) (st : SessionState) :
    createMany (L ++ [c]) st = create_session c.1 c.2.1 c.2.2 (createMany L st) := by
  unfold createMany
  rw [List.foldl_append]
  rfl

/-- A batch of creates with pairwise-fresh ids, timestamps within one TTL of
one another (so no create expires an earlier session), and staying at or
under the eviction threshold builds exactly the corresponding association
list, oldest first. -/
theorem createMany_eq (L : List (String × String × Int))
    (hnodup : (L.map Prod.fst).Nodup)
    (hlen : L.length ≤ MAX_SESSIONS + 1)
    (htime : ∀ c ∈ L, ∀ c' ∈ L, c'.2.2 - c.2.2 ≤ SESSION_TTL_SECONDS) :
    createMany L [] = L.map mkEntry := by
  induction L using List.reverseRecOn with
  | nil => rfl
  | append_singleton t c ih =>
    have hnd := hnodup
    rw [List.map_append, List.nodup_append] at hnd
    have hnd_t : (t.map Prod.fst).Nodup := hnd.1
    have hc1 : c.1 ∉ t.map Prod.fst := fun hmem => hnd.2.2 hmem (by simp)
    have htime_t : ∀ x ∈ t, ∀ y ∈ t, y.2.2 - x.2.2 ≤ SESSION_TTL_SECONDS :=
      fun x hx y hy =>
        htime x (List.mem_append_left _ hx) y (List.mem_append_left _ hy)
    have hlen' : t.length + 1 ≤ MAX_SESSIONS + 1 := by
      simpa [List.length_append] using hlen
    rw [createMany_append, ih hnd_t (by omega) htime_t]
    unfold create_session cleanup_old_sessions
    have hfil : (t.map mkEntry).filter (fun p => !sessionExpired c.2.2 p.2) =
        t.map mkEntry := by
      apply List.filter_eq_self.mpr
      intro p hp
      rcases List.mem_map.mp hp with ⟨x, hx, rfl⟩
      have hxc := htime x (List.mem_append_left _ hx) c
        (List.mem_append_right _ (by simp))
      simp [mkEntry, sessionExpired]
      omega
    have hpop : popWhileOver (t.map mkEntry) = t.map mkEntry := by
      unfold popWhileOver
      have hz : (t.map mkEntry).length - MAX_SESSIONS = 0 := by
        rw [List.length_map]; omega
      rw [hz, List.drop_zero]
    rw [hfil, hpop]
    unfold odInsert
    have hany : (t.map mkEntry).any (fun p => p.1 == c.1) = false := by
      apply List.any_eq_false.mpr
      intro p hp
      rcases List.mem_map.mp hp with ⟨x, hx, rfl⟩
      simp only [mkEntry, beq_iff_eq]
      intro heq
      exact hc1 (heq ▸ List.mem_map_of_mem Prod.fst hx)
    rw [if_neg (by simp [hany])]
    rw [List.map_append]
    rfl

theorem odGet_cons {α : Type} (p : String × α) (t : List (String × α)) (k : String) :
    odGet (p :: t) k = if p.1 == k then some p.2 else odGet t k := by
  unfold odGet
  by_cases h : p.1 = k
  · rw [List.find?_cons_of_pos _ (by simp [h]), if_pos (by simp [h])]
    rfl
  · rw [List.find?_cons_of_neg _ (by simp [h]), if_neg (by simp [h])]

/-- With distinct keys, a `get_session` call permutes the entries (it only
moves a hit to the end) and changes no lookup result. -/
theorem get_session_state_perm (st : SessionState) (sid : String)
    (hnodup : (odKeys st).Nodup) :
    ((get_session st sid).2).Perm st ∧
      ∀ k, odGet ((get_session st sid).2) k = odGet st k := by
  induction st with
  | nil => exact ⟨List.Perm.refl _, fun k => rfl⟩
  | cons p t ih =>
    simp only [odKeys, List.map_cons, List.nodup_cons] at hnodup
    obtain ⟨hp1, hnt⟩ := hnodup
    by_cases hps : p.1 = sid
    · have hfind : (p :: t).find? (fun q => q.1 == sid) = some p :=
        List.find?_cons_of_pos _ (by simp [hps])
      have hsnd : (get_session (p :: t) sid).2 = t ++ [p] := by
        unfold get_session
        rw [hfind]
        rw [List.eraseP_cons_of_pos (by simp [hps])]
      rw [hsnd]
      refine ⟨List.perm_append_singleton p t, fun k => ?_⟩
      rw [odGet_cons]
      by_cases hk : p.1 = k
      · rw [if_pos (by simp [hk])]
        unfold odGet
        rw [List.find?_append]
        have hnone : t.find? (fun q => q.1 == k) = none := by
          apply List.find?_eq_none.mpr
          intro x hx
          simp only [beq_iff_eq]
          intro hxk
          apply hp1
          have hmx : x.1 ∈ t.map Prod.fst := List.mem_map_of_mem Prod.fst hx
          rwa [hxk, ← hk] at hmx
        rw [hnone]
        show (([p].find? fun q => q.1 == k).map Prod.snd) = some p.2
        rw [List.find?_cons_of_pos _ (by simp [hk])]
        rfl
      · rw [if_neg (by simp [hk])]
        unfold odGet
        rw [List.find?_append]
        cases hft : t.find? (fun q => q.1 == k) with
        | none =>
          show (([p].find? fun q => q.1 == k).map Prod.snd) = _
          rw [List.find?_cons_of_neg _ (by simp [hk])]
          rfl
        | some e => rfl
    · have hcons : (p :: t).find? (fun q => q.1 == sid) =
          t.find? (fun q => q.1 == sid) :=
        List.find?_cons_of_neg _ (by simp [hps])
      have ihh := ih hnt
      cases hft : t.find? (fun q => q.1 == sid) with
      | none =>
        have hsnd : get_session (p :: t) sid = (none, p :: t) := by
          unfold get_session
          rw [hcons, hft]
        rw [hsnd]
        exact ⟨List.Perm.refl _, fun k => rfl⟩
      | some e =>
        have hsnd_t : (get_session t sid).2 =
            t.eraseP (fun q => q.1 == sid) ++ [e] := by
          unfold get_session
          rw [hft]
        have hsnd : (get_session (p :: t) sid).2 =
            p :: (t.eraseP (fun q => q.1 == sid) ++ [e]) := by
          unfold get_session
          rw [hcons, hft]
          show (p :: t).eraseP (fun q => q.1 == sid) ++ [e] = _
          rw [List.eraseP_cons_of_neg (by simp [hps])]
          rfl
        rw [hsnd]
        constructor
        · exact List.Perm.cons p (hsnd_t ▸ ihh.1)
        · intro k
          have hib : odGet (t.eraseP (fun q => q.1 == sid) ++ [e]) k =
              odGet t k := by
            have h2 := ihh.2 k
            rwa [hsnd_t] at h2
          rw [odGet_cons, odGet_cons, hib]

/-- A sequence of `get_session` calls permutes the entries and changes no
lookup result. -/
theorem applyGets_state (ids : List String) :
    ∀ st : SessionState, (odKeys st).Nodup →
      (applyGets ids st).Perm st ∧
        ∀ k, odGet (applyGets ids st) k = odGet st k := by
  induction ids with
  | nil => exact fun st _ => ⟨List.Perm.refl _, fun k => rfl⟩
  | cons i is ih =>
    intro st hnodup
    have h1 := get_session_state_perm st i hnodup
    have hn2 : (odKeys ((get_session st i).2)).Nodup := by
      have hpk : (odKeys ((get_session st i).2)).Perm (odKeys st) :=
        h1.1.map Prod.fst
      exact hpk.nodup_iff.mpr hnodup
    have h2 := ih ((get_session st i).2) hn2
    have hstep : applyGets (i :: is) st = applyGets is ((get_session st i).2) := rfl
    rw [hstep]
    exact ⟨h2.1.trans h1.1, fun k => (h2.2 k).trans (h1.2 k)⟩

/-- With distinct keys, every entry carrying the looked-up key holds the
looked-up value. -/
theorem odGet_unique {α : Type} (st : List (String × α)) (k : String) (v : α)
    (hnodup : (odKeys st).Nodup) (hget : odGet st k = some v) :
    ∀ p ∈ st, p.1 = k → p.2 = v := by
  induction st with
  | nil => intro p hp; exact absurd hp (List.not_mem_nil p)
  | cons q t ih =>
    simp only [odKeys, List.map_cons, List.nodup_cons] at hnodup
    obtain ⟨hq1, hnt⟩ := hnodup
    intro p hp hpk
    by_cases hqk : q.1 = k
    · have hqv : q.2 = v := by
        unfold odGet at hget
        rw [List.find?_cons_of_pos _ (by simp [hqk])] at hget
        exact Option.some.inj hget
      rcases List.mem_cons.mp hp with rfl | hpt
      · exact hqv
      · exfalso
        apply hq1
        have hmx : p.1 ∈ t.map Prod.fst := List.mem_map_of_mem Prod.fst hpt
        rwa [hpk, ← hqk] at hmx
    · have hget' : odGet t k = some v := by
        unfold odGet at hget ⊢
        rwa [List.find?_cons_of_neg _ (by simp [hqk])] at hget
      rcases List.mem_cons.mp hp with rfl | hpt
      · exact absurd hpk hqk
      · exact ih hnt hget' p hpt hpk

/-! ### Facts about the dict keys used by `generate_device_diff` -/

theorem odKeys_odInsert {α : Type} (d : List (String × α)) (k : String) (v : α) :
    odKeys (odInsert d k v) =
      if d.any (fun p => p.1 == k) then odKeys d else odKeys d ++ [k] := by
  unfold odInsert odKeys
  by_cases h : d.any (fun p => p.1 == k) = true
  · rw [if_pos h, if_pos h, List.map_map]
    apply List.map_congr_left
    intro p _
    by_cases hp : p.1 = k
    · simp [hp]
    · simp [hp]
  · rw [if_neg h, if_neg h]
    simp

theorem mem_odKeys_odOfList {α : Type} (key : α → String) (l : List α) (x : String) :
    x ∈ odKeys (odOfList key l) ↔ x ∈ l.map key := by
  induction l using List.reverseRecOn generalizing x with
  | nil => simp [odOfList, odKeys]
  | append_singleton t a ih =>
    have hfold : odOfList key (t ++ [a]) = odInsert (odOfList key t) (key a) a := by
      simp [odOfList, List.foldl_append]
    rw [hfold, odKeys_odInsert]
    by_cases hany : (odOfList key t).any (fun p => p.1 == key a) = true
    · rw [if_pos hany]
      have hmem : key a ∈ odKeys (odOfList key t) := by
        rcases List.any_eq_true.mp hany with ⟨p, hp, hpk⟩
        rw [beq_iff_eq] at hpk
        exact hpk ▸ List.mem_map_of_mem Prod.fst hp
      rw [ih x]
      have hmem2 : key a ∈ List.map key t := (ih (key a)).mp hmem
      simp only [List.map_append, List.map_cons, List.map_nil,
        List.mem_append, List.mem_cons, List.not_mem_nil, or_false]
      constructor
      · exact Or.inl
      · rintro (h | rfl)
        · exact h
        · exact hmem2
    · rw [if_neg hany]
      simp only [List.mem_append, List.map_append, List.map_cons, List.map_nil,
        List.mem_cons, List.not_mem_nil, or_false, List.mem_singleton, ih]

/-! ## Query engine (`src/core/query_engine.py`)

### A small backtracking regex engine for the `re` fragment it uses

The query engine calls `re.findall`/`re.search` with fixed patterns built
from literals, the character classes `\S`, `\s`, `\w`, `\d`, the greedy
quantifiers `+` and `*` on classes, alternation and capture groups.
`reMatch` reproduces Python's backtracking semantics for this fragment:
alternatives are tried left to right, greedy quantifiers longest first, and
the candidate list is in preference order, so its head is Python's match.
A leading `^` under `re.MULTILINE` is handled by the scanner
(`reFindallAux`), which also implements `findall`'s non-overlapping
left-to-right scan. -/

inductive RE where
  | fail
  | eps
  | lit (s : String) (ci : Bool)
  | cls (f : Char → Bool)
  | plus (f : Char → Bool)
  | star (f : Char → Bool)
  | grp (r : RE)
  | alt (r₁ r₂ : RE)
  | seq (r₁ r₂ : RE)

def ciChar (ci : Bool) (c : Char) : Char :=
  if ci then c.toLower else c

/-- Match a literal (case-insensitively if `ci`): the consumed input
characters and the rest. -/
def stripLit (ci : Bool) : List Char → List Char → Option (List Char × List Char)
  | [], s => some ([], s)
  | _ :: _, [] => none
  | p :: ps, c :: cs =>
      if ciChar ci p == ciChar ci c then
        match stripLit ci ps cs with
        | some (con, rest) => some (c :: con, rest)
        | none => none
      else none

/-- Candidate splits for a greedy run of `f`-characters: the maximal run
first, then ever shorter prefixes, down to `low` characters. -/
def greedySplits (f : Char → Bool) (low : Nat) (s : List Char) :
    List (List Char × List Char) :=
  let run := s.takeWhile f
  let rest := s.dropWhile f
  (List.range (run.length + 1)).filterMap (fun i =>
    let k := run.length - i
    if low ≤ k then some (run.take k, run.drop k ++ rest) else none)

/-- All ways a regex can match a prefix of the input, in backtracking
preference order: `(consumed, rest, captured groups)`. -/
def reMatch : RE → List Char → List (List Char × List Char × List String)
  | .fail, _ => []
  | .eps, s => [([], s, [])]
  | .lit str ci, s =>
      match stripLit ci str.data s with
      | some (con, rest) => [(con, rest, [])]
      | none => []
  | .cls f, s =>
      match s with
      | [] => []
      | c :: rest => if f c then [([c], rest, [])] else []
  | .plus f, s => (greedySplits f 1 s).map (fun p => (p.1, p.2, []))
  | .star f, s => (greedySplits f 0 s).map (fun p => (p.1, p.2, []))
  | .grp r, s => (reMatch r s).map (fun m => (m.1, m.2.1, String.mk m.1 :: m.2.2))
  | .alt r₁ r₂, s => reMatch r₁ s ++ reMatch r₂ s
  | .seq r₁ r₂, s =>
      (reMatch r₁ s).flatMap (fun m₁ =>
        (reMatch r₂ m₁.2.1).map (fun m₂ =>
          (m₁.1 ++ m₂.1, m₂.2.1, m₁.2.2 ++ m₂.2.2)))

/-- `re.findall` worker: walk the input position by position (a leading `^`
under `re.MULTILINE` restricts match starts to line starts), take the first
match candidate at each position, record its groups and continue after the
consumed text (matches are non-overlapping; a zero-width match advances by
one character). -/
def reFindallAux (r : RE) (anchored : Bool) :
    Nat → List Char → Bool → List (List String)
  | 0, _, _ => []
  | fuel + 1, s, atBol =>
      if anchored ∧ ¬atBol then
        match s with
        | [] => []
        | c :: rest => reFindallAux r anchored fuel rest (c == '\n')
      else
        match (reMatch r s).head? with
        | some m =>
            match m.1 with
            | [] =>
                match s with
                | [] => [m.2.2]
                | c :: rest => m.2.2 :: reFindallAux r anchored fuel rest (c == '\n')
            | _ :: _ =>
                m.2.2 :: reFindallAux r anchored fuel m.2.1
                  (m.1.getLast? == some '\n')
        | none =>
            match s with
            | [] => []
            | c :: rest => reFindallAux r anchored fuel rest (c == '\n')

def reFindall (r : RE) (anchored : Bool) (s : String) : List (List String) :=
  reFindallAux r anchored (s.data.length + 1) s.data true

/-- `pattern.search(s) is not None` (used for the unanchored error
patterns). -/
def reSearch (r : RE) (s : String) : Bool :=
  !(reFindall r false s).isEmpty

def reNonSpace : Char → Bool := fun c => !pyIsSpace c

def reSpace : Char → Bool := pyIsSpace

def reDigit : Char → Bool := fun c => c.isDigit

/-- Python `\w` (ASCII range suffices for the inputs at hand). -/
def reWord : Char → Bool := fun c => c.isAlphanum || c == '_'

def reSeqL : List RE → RE := fun rs => rs.foldr RE.seq RE.eps

def reAltL : List RE → RE := fun rs => rs.foldr RE.alt RE.fail

/-- `^(\S+)\s+(\S+)\s+\S+\s+\S+\s+(up|down|administratively down)\s+(up|down)`
(`re.MULTILINE | re.IGNORECASE`): Cisco `show ip interface brief`. -/
def IFACE_PAT1 : RE :=
  reSeqL [.grp (.plus reNonSpace), .plus reSpace, .grp (.plus reNonSpace),
    .plus reSpace, .plus reNonSpace, .plus reSpace, .plus reNonSpace,
    .plus reSpace,
    .grp (reAltL [.lit "up" true, .lit "down" true,
      .lit "administratively down" true]),
    .plus reSpace, .grp (reAltL [.lit "up" true, .lit "down" true])]

/-- `^(Gi\S+|Fa\S+|Te\S+|Eth\S+)\s+\S*\s+(connected|notconnect|disabled|err-disabled)\s+`
(`re.MULTILINE | re.IGNORECASE`): Cisco `show interfaces status`. -/
def IFACE_PAT2 : RE :=
  reSeqL [.grp (reAltL [
      .seq (.lit "Gi" true) (.plus reNonSpace),
      .seq (.lit "Fa" true) (.plus reNonSpace),
      .seq (.lit "Te" true) (.plus reNonSpace),
      .seq (.lit "Eth" true) (.plus reNonSpace)]),
    .plus reSpace, .star reNonSpace, .plus reSpace,
    .grp (reAltL [.lit "connected" true, .lit "notconnect" true,
      .lit "disabled" true, .lit "err-disabled" true]),
    .plus reSpace]

/-- `^(\S+)\s+is\s+(up|down|administratively down),\s+line protocol is\s+(up|down)`
(`re.MULTILINE | re.IGNORECASE`): generic line-protocol output. -/
def IFACE_PAT3 : RE :=
  reSeqL [.grp (.plus reNonSpace), .plus reSpace, .lit "is" true,
    .plus reSpace,
    .grp (reAltL [.lit "up" true, .lit "down" true,
      .lit "administratively down" true]),
    .lit "," true, .plus reSpace, .lit "line protocol is" true,
    .plus reSpace, .grp (reAltL [.lit "up" true, .lit "down" true])]

def INTERFACE_STATUS_PATTERNS : List RE := [IFACE_PAT1, IFACE_PAT2, IFACE_PAT3]

/-- `error|err-disable|fail|down|warning|critical` (`re.IGNORECASE`). -/
def ERROR_PAT1 : RE :=
  reAltL [.lit "error" true, .lit "err-disable" true, .lit "fail" true,
    .lit "down" true, .lit "warning" true, .lit "critical" true]

/-- `%\w+-\d+-\w+:` (`re.IGNORECASE`): Cisco syslog format. -/
def ERROR_PAT2 : RE :=
  reSeqL [.lit "%" true, .plus reWord, .lit "-" true, .plus reDigit,
    .lit "-" true, .plus reWord, .lit ":" true]

def ERROR_PATTERNS : List RE := [ERROR_PAT1, ERROR_PAT2]

/-- `\d+\.\d+\.\d+\.\d+`. -/
def reIp : RE :=
  reSeqL [.plus reDigit, .lit "." false, .plus reDigit, .lit "." false,
    .plus reDigit, .lit "." false, .plus reDigit]

/-- `^(\d+\.\d+\.\d+\.\d+)\s+\d+\s+(\d+)\s+\d+\s+\d+\s+\d+\s+\d+\s+\d+\s+(\S+)\s+(\S+)`
(`re.MULTILINE`). -/
def BGP_NEIGHBOR_PATTERN : RE :=
  reSeqL [.grp reIp, .plus reSpace, .plus reDigit, .plus reSpace,
    .grp (.plus reDigit), .plus reSpace, .plus reDigit, .plus reSpace,
    .plus reDigit, .plus reSpace, .plus reDigit, .plus reSpace,
    .plus reDigit, .plus reSpace, .plus reDigit, .plus reSpace,
    .grp (.plus reNonSpace), .plus reSpace, .grp (.plus reNonSpace)]

/-- `^(\d+\.\d+\.\d+\.\d+)\s+\d+\s+(FULL|2WAY|INIT|DOWN)/\S+\s+\S+\s+(\S+)\s+(\S+)`
(`re.MULTILINE`). -/
def OSPF_NEIGHBOR_PATTERN : RE :=
  reSeqL [.grp reIp, .plus reSpace, .plus reDigit, .plus reSpace,
    .grp (reAltL [.lit "FULL" false, .lit "2WAY" false, .lit "INIT" false,
      .lit "DOWN" false]),
    .lit "/" false, .plus reNonSpace, .plus reSpace, .plus reNonSpace,
    .plus reSpace, .grp (.plus reNonSpace), .plus reSpace,
    .grp (.plus reNonSpace)]

/-- `^(\d+)\s+(\S+)\s+(active|suspend)` (`re.MULTILINE | re.IGNORECASE`). -/
def VLAN_PATTERN : RE :=
  reSeqL [.grp (.plus reDigit), .plus reSpace, .grp (.plus reNonSpace),
    .plus reSpace, .grp (reAltL [.lit "active" true, .lit "suspend" true])]

/-! ### Query engine data types -/

inductive QueryType where
  | INTERFACE_STATUS
  | INTERFACE_DOWN
  | INTERFACE_UP
  | ERRORS
  | BGP_CHANGES
  | OSPF_CHANGES
  | ROUTING_CHANGES
  | CONFIG_CHANGES
  | VLAN_CHANGES
  | GENERAL_DIFF
  | SEARCH
deriving Repr, DecidableEq

structure IfaceChange where
  interface : String
  pre_status : String
  post_status : String
  change_type : String
deriving Repr, DecidableEq

structure IfaceFinding where
  interface : String
  pre_status : String
  post_status : String
deriving Repr, DecidableEq

structure ErrFinding where
  command : String
  error_line : String
deriving Repr, DecidableEq

/-- BGP neighbor data dict `{"as": ..., "state": ...}` (`as` is a Lean
keyword, renamed `asn`). -/
structure BgpNb where
  asn : String
  state : String
deriving Repr, DecidableEq

structure OspfNb where
  state : String
  interface : String
deriving Repr, DecidableEq

structure VlanInfo where
  name : String
  status : String
deriving Repr, DecidableEq

structure CfgChange where
  command : String
  added : Nat
  removed : Nat
deriving Repr, DecidableEq

/-- The `change` dict kinds appended by `find_bgp_changes`. -/
inductive BgpChange where
  | newNb (neighbor asn state : String)
  | stateChange (neighbor pre_state post_state : String)
  | removedNb (neighbor asn : String)
deriving Repr, DecidableEq

inductive OspfChange where
  | newNb (neighbor state interface : String)
  | stateChange (neighbor pre_state post_state : String)
  | removedNb (neighbor : String)
deriving Repr, DecidableEq

inductive VlanChange where
  | newVlan (vlan name : String)
  | removedVlan (vlan name : String)
deriving Repr, DecidableEq

structure SearchMatch where
  log_type : String
  command : String
  line : String
deriving Repr, DecidableEq

/-- The per-device `details` dicts (`List[Dict]` in Python, one shape per
query kind). -/
inductive QueryDetail where
  | ifaceChanges (hostname : String) (changes : List IfaceChange)
      (total_changes : Nat)
  | ifaceList (hostname : String) (interfaces : List IfaceFinding)
  | errorList (hostname : String) (errors : List ErrFinding)
  | bgpList (hostname : String) (changes : List BgpChange)
  | ospfList (hostname : String) (changes : List OspfChange)
  | vlanList (hostname : String) (changes : List VlanChange)
  | cfgList (hostname : String) (changes : List CfgChange)
  | summaryEntry (hostname : String)
      (commands_changed total_commands lines_added lines_removed : Nat)
  | searchList (hostname : String) (match_list : List SearchMatch)
deriving Repr, DecidableEq

structure QueryResult where
  query_type : QueryType
  summary : String
  devices_affected : List String
  details : List QueryDetail
  total_findings : Nat
deriving Repr, DecidableEq

structure LogQueryEngine where
  device_logs : List (String × (Option DeviceLog × Option DeviceLog))
  device_diffs : List (String × DeviceDiff)
deriving Repr, DecidableEq

/-- `LogQueryEngine.__init__`. -/
def mkEngine
    (device_logs : List (String × (Option DeviceLog × Option DeviceLog)))
    (device_diffs : List DeviceDiff) : LogQueryEngine :=
  ⟨device_logs, odOfList DeviceDiff.hostname device_diffs⟩

/-! ### Query engine helpers -/

/-- Python slicing `s[:n]` (by code points). -/
def pyTake (n : Nat) (s : String) : String := String.mk (s.data.take n)

/-- Case-insensitive literal containment: `re.escape(sub)` compiled with
`re.IGNORECASE`, searched in `s`. -/
def containsCI (s sub : String) : Bool :=
  containsSub (pyToLower s) (pyToLower sub)

/-- `_is_down`. -/
def is_down (status : String) : Bool :=
  containsAny (pyToLower status)
    ["down", "notconnect", "disabled", "err-disabled", "not present"]

/-- `_is_up`. -/
def is_up (status : String) : Bool :=
  containsAny (pyToLower status) ["up", "connected"] &&
    !containsSub (pyToLower status) "down"

/-- `_classify_change`. -/
def classify_change (pre post : String) : String :=
  if is_down pre && is_up post then "CAME_UP"
  else if is_up pre && is_down post then "WENT_DOWN"
  else if pre == "not present" then "NEW"
  else if post == "not present" then "REMOVED"
  else "MODIFIED"

/-- `_is_false_positive_error`. -/
def is_false_positive_error (line : String) : Bool :=
  containsAny (pyToLower line)
    ["0 input errors", "0 output errors", "no error", "error count: 0",
      "errors: 0"]

/-- One regex match of `_extract_interface_status`: the group-count of the
pattern decides the status layout. -/
def ifaceStatusStep (d : List (String × String)) (gs : List String) :
    List (String × String) :=
  if 2 ≤ gs.length then
    let iface := gs.getD 0 ""
    let status :=
      if gs.length == 4 then gs.getD 2 "" ++ "/" ++ gs.getD 3 ""
      else if gs.length == 3 then gs.getD 1 "" ++ "/" ++ gs.getD 2 ""
      else gs.getD 1 ""
    odInsert d iface (pyToLower status)
  else d

/-- `_extract_interface_status`. -/
def extract_interface_status (log : DeviceLog) : List (String × String) :=
  log.commands.foldl (fun d cmd =>
    INTERFACE_STATUS_PATTERNS.foldl (fun d pat =>
      (reFindall pat true cmd.output).foldl ifaceStatusStep d) d) []

/-- `_extract_bgp_neighbors`. -/
def extract_bgp_neighbors (log : DeviceLog) : List (String × BgpNb) :=
  log.commands.foldl (fun d cmd =>
    if containsSub (pyToLower cmd.command) "bgp" then
      (reFindall BGP_NEIGHBOR_PATTERN true cmd.output).foldl (fun d gs =>
        odInsert d (gs.getD 0 "")
          ⟨gs.getD 1 "", if 3 < gs.length then gs.getD 3 "" else "?"⟩) d
    else d) []

/-- `_extract_ospf_neighbors`. -/
def extract_ospf_neighbors (log : DeviceLog) : List (String × OspfNb) :=
  log.commands.foldl (fun d cmd =>
    if containsSub (pyToLower cmd.command) "ospf" then
      (reFindall OSPF_NEIGHBOR_PATTERN true cmd.output).foldl (fun d gs =>
        odInsert d (gs.getD 0 "")
          ⟨gs.getD 1 "", if 3 < gs.length then gs.getD 3 "" else "?"⟩) d
    else d) []

/-- `_extract_vlans`. -/
def extract_vlans (log : DeviceLog) : List (String × VlanInfo) :=
  log.commands.foldl (fun d cmd =>
    if containsSub (pyToLower cmd.command) "vlan" then
      (reFindall VLAN_PATTERN true cmd.output).foldl (fun d gs =>
        odInsert d (gs.getD 0 "") ⟨gs.getD 1 "", gs.getD 2 ""⟩) d
    else d) []

/-! ### The `find_*` query methods

The summary literals in `query_engine.py` carry double-encoded UTF-8
(e.g. the bullet is the three code points `U+00E2 U+20AC U+00A2`); the
constants below reproduce them code-point for code-point. -/

def bulletS : String := "  â€¢ "

def arrowS : String := "â†’"

def checkS : String := "âœ…"

def warnS : String := "âš ï¸"

def chartS : String := "ðŸ“Š"

/-- The bullet line `find_interfaces_down`/`find_interfaces_up` render per
finding. -/
def downBullet (i : IfaceFinding) : String :=
  bulletS ++ i.interface ++ ": " ++ i.pre_status ++ " " ++ arrowS ++ " " ++
    i.post_status ++ "\n"

def renderDownIface (s : String) (i : IfaceFinding) : String :=
  s ++ downBullet i

/-- One device section of the `find_interfaces_down`/`_up` summary. -/
def renderDownDev (s : String) (d : QueryDetail) : String :=
  match d with
  | .ifaceList h ifs => ifs.foldl renderDownIface (s ++ "\n**" ++ h ++ "**:\n")
  | _ => s

/-- Append one bullet line per item (the inner summary loops). -/
def renderItems {α : Type} (bullet : α → String) (s : String) (l : List α) :
    String :=
  l.foldl (fun s a => s ++ bullet a) s

/-- Per-device collection step of `find_interfaces_down`. -/
def downStep (acc : List String × List QueryDetail)
    (hp : String × (Option DeviceLog × Option DeviceLog)) :
    List String × List QueryDetail :=
  match hp.2.1, hp.2.2 with
  | some pre_log, some post_log =>
    let pre_interfaces := extract_interface_status pre_log
    let post_interfaces := extract_interface_status post_log
    let down_interfaces := post_interfaces.foldl (fun ds p =>
      let pre_status := (odGet pre_interfaces p.1).getD "not present"
      if is_down p.2 && !is_down pre_status then
        ds ++ [(⟨p.1, pre_status, p.2⟩ : IfaceFinding)]
      else ds) []
    if down_interfaces.isEmpty then acc
    else (acc.1 ++ [hp.1], acc.2 ++ [QueryDetail.ifaceList hp.1 down_interfaces])
  | _, _ => acc

/-- `LogQueryEngine.find_interfaces_down`. -/
def find_interfaces_down (e : LogQueryEngine) : QueryResult :=
  let acc := e.device_logs.foldl downStep ([], [])
  let affected_devices := acc.1
  let details := acc.2
  let total := details.foldl (fun n d =>
    match d with
    | .ifaceList _ ifs => n + ifs.length
    | _ => n) 0
  let summary :=
    if details.isEmpty then
      checkS ++ " No interfaces went down during the change."
    else
      details.foldl renderDownDev
        (warnS ++ " " ++ toString total ++
          " interface(s) went DOWN across " ++
          toString affected_devices.length ++ " device(s):\n")
  ⟨QueryType.INTERFACE_DOWN, summary, affected_devices, details, total⟩

/-- Per-device collection step of `find_interfaces_up`. -/
def upStep (acc : List String × List QueryDetail)
    (hp : String × (Option DeviceLog × Option DeviceLog)) :
    List String × List QueryDetail :=
  match hp.2.1, hp.2.2 with
  | some pre_log, some post_log =>
    let pre_interfaces := extract_interface_status pre_log
    let post_interfaces := extract_interface_status post_log
    let up_interfaces := post_interfaces.foldl (fun us p =>
      let pre_status := (odGet pre_interfaces p.1).getD "not present"
      if is_up p.2 && !is_up pre_status then
        us ++ [(⟨p.1, pre_status, p.2⟩ : IfaceFinding)]
      else us) []
    if up_interfaces.isEmpty then acc
    else (acc.1 ++ [hp.1], acc.2 ++ [QueryDetail.ifaceList hp.1 up_interfaces])
  | _, _ => acc

/-- `LogQueryEngine.find_interfaces_up`. -/
def find_interfaces_up (e : LogQueryEngine) : QueryResult :=
  let acc := e.device_logs.foldl upStep ([], [])
  let affected_devices := acc.1
  let details := acc.2
  let total := details.foldl (fun n d =>
    match d with
    | .ifaceList _ ifs => n + ifs.length
    | _ => n) 0
  let summary :=
    if details.isEmpty then
      "No interfaces came up during the change."
    else
      details.foldl renderDownDev
        (checkS ++ " " ++ toString total ++
          " interface(s) came UP across " ++
          toString affected_devices.length ++ " device(s):\n")
  ⟨QueryType.INTERFACE_UP, summary, affected_devices, details, total⟩

/-- Per-device collection step of `find_interface_changes`.  Python walks
`set(pre) | set(post)`, whose iteration order is a process-stable function
of the elements; it is modelled as first-seen order over pre then post. -/
def chgStep (acc : List String × List QueryDetail)
    (hp : String × (Option DeviceLog × Option DeviceLog)) :
    List String × List QueryDetail :=
  match hp.2.1, hp.2.2 with
  | some pre_log, some post_log =>
    let preI := extract_interface_status pre_log
    let postI := extract_interface_status post_log
    let all_interfaces := (odKeys preI ++ odKeys postI).dedup
    let changes := all_interfaces.foldl (fun cs iface =>
      let pre_status := (odGet preI iface).getD "not present"
      let post_status := (odGet postI iface).getD "not present"
      if pre_status != post_status then
        cs ++ [(⟨iface, pre_status, post_status,
          classify_change pre_status post_status⟩ : IfaceChange)]
      else cs) []
    if changes.isEmpty then acc
    else (acc.1 ++ [hp.1],
      acc.2 ++ [QueryDetail.ifaceChanges hp.1 changes changes.length])
  | _, _ => acc

/-- The bullet line `find_interface_changes` renders per change. -/
def chgBullet (c : IfaceChange) : String :=
  bulletS ++ c.interface ++ ": " ++ c.pre_status ++ " " ++ arrowS ++ " " ++
    c.post_status ++ "\n"

/-- One device section of the `find_interface_changes` summary: at most 5
bullets, then a `... and N more` line when there were more. -/
def renderChangesDev (s : String) (d : QueryDetail) : String :=
  match d with
  | .ifaceChanges h cs tc =>
    let s := renderItems chgBullet
      (s ++ "\n**" ++ h ++ "**: " ++ toString tc ++ " change(s)\n") (cs.take 5)
    if 5 < tc then s ++ "  ... and " ++ toString (tc - 5) ++ " more\n" else s
  | _ => s

/-- `LogQueryEngine.find_interface_changes`. -/
def find_interface_changes (e : LogQueryEngine) : QueryResult :=
  let acc := e.device_logs.foldl chgStep ([], [])
  let affected_devices := acc.1
  let details := acc.2
  let total := details.foldl (fun n d =>
    match d with
    | .ifaceChanges _ _ tc => n + tc
    | _ => n) 0
  let summary :=
    if details.isEmpty then
      "No interface status changes detected across any devices."
    else
      details.foldl renderChangesDev
        ("Found " ++ toString total ++
          " interface status change(s) across " ++
          toString affected_devices.length ++ " device(s):\n")
  ⟨QueryType.INTERFACE_STATUS, summary, affected_devices, details, total⟩

/-- The bullet line `find_errors` renders per error finding. -/
def errBullet (er : ErrFinding) : String :=
  bulletS ++ "[" ++ er.command ++ "] " ++ pyTake 80 er.error_line ++ "\n"

/-- One device section of the `find_errors` summary: at most 5 bullets, no
suffix. -/
def renderErrDev (s : String) (d : QueryDetail) : String :=
  match d with
  | .errorList h errs =>
    renderItems errBullet (s ++ "\n**" ++ h ++ "**:\n") (errs.take 5)
  | _ => s

/-- Per-device collection step of `find_errors` (post log only; at most 10
error findings are kept per device). -/
def errStep (acc : List String × List QueryDetail)
    (hp : String × (Option DeviceLog × Option DeviceLog)) :
    List String × List QueryDetail :=
  match hp.2.2 with
  | some post_log =>
    let errors := post_log.commands.foldl (fun errs cmd =>
      ERROR_PATTERNS.foldl (fun errs pat =>
        if (reFindall pat false cmd.output).isEmpty then errs
        else errs ++ ((splitOnNl cmd.output).filter (fun line =>
          reSearch pat line)).map (fun line =>
            (⟨cmd.command, pyStrip line⟩ : ErrFinding))) errs) []
    let errors := errors.filter (fun er =>
      !is_false_positive_error er.error_line)
    if errors.isEmpty then acc
    else (acc.1 ++ [hp.1],
      acc.2 ++ [QueryDetail.errorList hp.1 (errors.take 10)])
  | none => acc

/-- `LogQueryEngine.find_errors`. -/
def find_errors (e : LogQueryEngine) : QueryResult :=
  let acc := e.device_logs.foldl errStep ([], [])
  let affected_devices := acc.1
  let details := acc.2
  let total := details.foldl (fun n d =>
    match d with
    | .errorList _ errs => n + errs.length
    | _ => n) 0
  let summary :=
    if details.isEmpty then
      checkS ++ " No errors found in post-change logs."
    else
      details.foldl renderErrDev
        (warnS ++ " Found " ++ toString total ++
          " error indication(s) across " ++
          toString affected_devices.length ++ " device(s):\n")
  ⟨QueryType.ERRORS, summary, affected_devices, details, total⟩

/-- The bullet line `find_bgp_changes` renders per change kind. -/
def bgpBullet : BgpChange → String
  | .newNb nb asn st =>
      bulletS ++ "NEW neighbor " ++ nb ++ " (AS " ++ asn ++ ") - " ++ st ++ "\n"
  | .removedNb nb asn =>
      bulletS ++ "REMOVED neighbor " ++ nb ++ " (AS " ++ asn ++ ")\n"
  | .stateChange nb a b =>
      bulletS ++ nb ++ ": " ++ a ++ " " ++ arrowS ++ " " ++ b ++ "\n"

/-- One device section of the `find_bgp_changes` summary: every change, no
truncation. -/
def renderBgpDev (s : String) (d : QueryDetail) : String :=
  match d with
  | .bgpList h cs => renderItems bgpBullet (s ++ "\n**" ++ h ++ "**:\n") cs
  | _ => s

/-- Per-device collection step of `find_bgp_changes`. -/
def bgpStep (acc : List String × List QueryDetail)
    (hp : String × (Option DeviceLog × Option DeviceLog)) :
    List String × List QueryDetail :=
  match hp.2.1, hp.2.2 with
  | some pre_log, some post_log =>
    let pre_neighbors := extract_bgp_neighbors pre_log
    let post_neighbors := extract_bgp_neighbors post_log
    let changes := post_neighbors.foldl (fun cs p =>
      match odGet pre_neighbors p.1 with
      | none => cs ++ [BgpChange.newNb p.1 p.2.asn p.2.state]
      | some prenb =>
        if prenb.state != p.2.state then
          cs ++ [BgpChange.stateChange p.1 prenb.state p.2.state]
        else cs) []
    let changes := pre_neighbors.foldl (fun cs p =>
      if (odGet post_neighbors p.1).isNone then
        cs ++ [BgpChange.removedNb p.1 p.2.asn]
      else cs) changes
    if changes.isEmpty then acc
    else (acc.1 ++ [hp.1], acc.2 ++ [QueryDetail.bgpList hp.1 changes])
  | _, _ => acc

/-- `LogQueryEngine.find_bgp_changes`. -/
def find_bgp_changes (e : LogQueryEngine) : QueryResult :=
  let acc := e.device_logs.foldl bgpStep ([], [])
  let affected_devices := acc.1
  let details := acc.2
  let total := details.foldl (fun n d =>
    match d with
    | .bgpList _ cs => n + cs.length
    | _ => n) 0
  let summary :=
    if details.isEmpty then
      "No BGP neighbor changes detected."
    else
      details.foldl renderBgpDev
        ("Found " ++ toString total ++ " BGP change(s) across " ++
          toString affected_devices.length ++ " device(s):\n")
  ⟨QueryType.BGP_CHANGES, summary, affected_devices, details, total⟩

/-- The bullet line `find_ospf_changes` renders per change kind. -/
def ospfBullet : OspfChange → String
  | .newNb nb st ifc =>
      bulletS ++ "NEW neighbor " ++ nb ++ " (" ++ st ++ ") on " ++ ifc ++ "\n"
  | .removedNb nb =>
      bulletS ++ "REMOVED neighbor " ++ nb ++ "\n"
  | .stateChange nb a b =>
      bulletS ++ nb ++ ": " ++ a ++ " " ++ arrowS ++ " " ++ b ++ "\n"

/-- One device section of the `find_ospf_changes` summary: every change, no
truncation. -/
def renderOspfDev (s : String) (d : QueryDetail) : String :=
  match d with
  | .ospfList h cs => renderItems ospfBullet (s ++ "\n**" ++ h ++ "**:\n") cs
  | _ => s

/-- Per-device collection step of `find_ospf_changes`. -/
def ospfStep (acc : List String × List QueryDetail)
    (hp : String × (Option DeviceLog × Option DeviceLog)) :
    List String × List QueryDetail :=
  match hp.2.1, hp.2.2 with
  | some pre_log, some post_log =>
    let pre_neighbors := extract_ospf_neighbors pre_log
    let post_neighbors := extract_ospf_neighbors post_log
    let changes := post_neighbors.foldl (fun cs p =>
      match odGet pre_neighbors p.1 with
      | none => cs ++ [OspfChange.newNb p.1 p.2.state p.2.interface]
      | some prenb =>
        if prenb.state != p.2.state then
          cs ++ [OspfChange.stateChange p.1 prenb.state p.2.state]
        else cs) []
    let changes := pre_neighbors.foldl (fun cs p =>
      if (odGet post_neighbors p.1).isNone then
        cs ++ [OspfChange.removedNb p.1]
      else cs) changes
    if changes.isEmpty then acc
    else (acc.1 ++ [hp.1], acc.2 ++ [QueryDetail.ospfList hp.1 changes])
  | _, _ => acc

/-- `LogQueryEngine.find_ospf_changes`. -/
def find_ospf_changes (e : LogQueryEngine) : QueryResult :=
  let acc := e.device_logs.foldl ospfStep ([], [])
  let affected_devices := acc.1
  let details := acc.2
  let total := details.foldl (fun n d =>
    match d with
    | .ospfList _ cs => n + cs.length
    | _ => n) 0
  let summary :=
    if details.isEmpty then
      "No OSPF neighbor changes detected."
    else
      details.foldl renderOspfDev
        ("Found " ++ toString total ++ " OSPF change(s) across " ++
          toString affected_devices.length ++ " device(s):\n")
  ⟨QueryType.OSPF_CHANGES, summary, affected_devices, details, total⟩

/-- The bullet line `find_vlan_changes` renders per change kind. -/
def vlanBullet : VlanChange → String
  | .newVlan v nm => bulletS ++ "NEW VLAN " ++ v ++ " (" ++ nm ++ ")\n"
  | .removedVlan v nm => bulletS ++ "REMOVED VLAN " ++ v ++ " (" ++ nm ++ ")\n"

/-- One device section of the `find_vlan_changes` summary: every change, no
truncation. -/
def renderVlanDev (s : String) (d : QueryDetail) : String :=
  match d with
  | .vlanList h cs => renderItems vlanBullet (s ++ "\n**" ++ h ++ "**:\n") cs
  | _ => s

/-- Per-device collection step of `find_vlan_changes`. -/
def vlanStep (acc : List String × List QueryDetail)
    (hp : String × (Option DeviceLog × Option DeviceLog)) :
    List String × List QueryDetail :=
  match hp.2.1, hp.2.2 with
  | some pre_log, some post_log =>
    let pre_vlans := extract_vlans pre_log
    let post_vlans := extract_vlans post_log
    let changes := post_vlans.foldl (fun cs p =>
      if (odGet pre_vlans p.1).isNone then
        cs ++ [VlanChange.newVlan p.1 p.2.name]
      else cs) []
    let changes := pre_vlans.foldl (fun cs p =>
      if (odGet post_vlans p.1).isNone then
        cs ++ [VlanChange.removedVlan p.1 p.2.name]
      else cs) changes
    if changes.isEmpty then acc
    else (acc.1 ++ [hp.1], acc.2 ++ [QueryDetail.vlanList hp.1 changes])
  | _, _ => acc

/-- `LogQueryEngine.find_vlan_changes`. -/
def find_vlan_changes (e : LogQueryEngine) : QueryResult :=
  let acc := e.device_logs.foldl vlanStep ([], [])
  let affected_devices := acc.1
  let details := acc.2
  let total := details.foldl (fun n d =>
    match d with
    | .vlanList _ cs => n + cs.length
    | _ => n) 0
  let summary :=
    if details.isEmpty then
      "No VLAN changes detected."
    else
      details.foldl renderVlanDev
        ("Found " ++ toString total ++ " VLAN change(s) across " ++
          toString affected_devices.length ++ " device(s):\n")
  ⟨QueryType.VLAN_CHANGES, summary, affected_devices, details, total⟩

/-- The bullet line `find_config_changes` renders per changed command. -/
def cfgBullet (c : CfgChange) : String :=
  bulletS ++ c.command ++ ": +" ++ toString c.added ++ "/-" ++
    toString c.removed ++ " lines\n"

/-- One device section of the `find_config_changes` summary: every change,
no truncation. -/
def renderCfgDev (s : String) (d : QueryDetail) : String :=
  match d with
  | .cfgList h cs => renderItems cfgBullet (s ++ "\n**" ++ h ++ "**:\n") cs
  | _ => s

/-- Per-device collection step of `find_config_changes`. -/
def cfgStep (acc : List String × List QueryDetail)
    (hd : String × DeviceDiff) : List String × List QueryDetail :=
  let config_changes := hd.2.command_diffs.foldl (fun cs cd =>
    if (containsSub (pyToLower cd.command) "running-config" ||
        containsSub (pyToLower cd.command) "config") && cd.has_changes then
      cs ++ [(⟨cd.command, cd.added_lines, cd.removed_lines⟩ : CfgChange)]
    else cs) []
  if config_changes.isEmpty then acc
  else (acc.1 ++ [hd.1], acc.2 ++ [QueryDetail.cfgList hd.1 config_changes])

/-- `LogQueryEngine.find_config_changes`. -/
def find_config_changes (e : LogQueryEngine) : QueryResult :=
  let acc := e.device_diffs.foldl cfgStep ([], [])
  let affected_devices := acc.1
  let details := acc.2
  let total := details.foldl (fun n d =>
    match d with
    | .cfgList _ cs => n + cs.length
    | _ => n) 0
  let summary :=
    if details.isEmpty then
      "No configuration changes detected."
    else
      details.foldl renderCfgDev
        ("Found configuration changes on " ++
          toString affected_devices.length ++ " device(s):\n")
  ⟨QueryType.CONFIG_CHANGES, summary, affected_devices, details, total⟩

/-- The bullet line `find_routing_changes` renders per changed command. -/
def routeBullet (c : CfgChange) : String :=
  bulletS ++ c.command ++ ": +" ++ toString c.added ++ "/-" ++
    toString c.removed ++ " entries\n"

/-- One device section of the `find_routing_changes` summary: every change,
no truncation. -/
def renderRouteDev (s : String) (d : QueryDetail) : String :=
  match d with
  | .cfgList h cs => renderItems routeBullet (s ++ "\n**" ++ h ++ "**:\n") cs
  | _ => s

/-- Per-device collection step of `find_routing_changes`. -/
def routeStep (acc : List String × List QueryDetail)
    (hd : String × DeviceDiff) : List String × List QueryDetail :=
  let routing_changes := hd.2.command_diffs.foldl (fun cs cd =>
    if (containsSub (pyToLower cd.command) "route" ||
        containsSub (pyToLower cd.command) "routing") && cd.has_changes then
      cs ++ [(⟨cd.command, cd.added_lines, cd.removed_lines⟩ : CfgChange)]
    else cs) []
  if routing_changes.isEmpty then acc
  else (acc.1 ++ [hd.1], acc.2 ++ [QueryDetail.cfgList hd.1 routing_changes])

/-- `LogQueryEngine.find_routing_changes`. -/
def find_routing_changes (e : LogQueryEngine) : QueryResult :=
  let acc := e.device_diffs.foldl routeStep ([], [])
  let affected_devices := acc.1
  let details := acc.2
  let total := details.foldl (fun n d =>
    match d with
    | .cfgList _ cs => n + cs.length
    | _ => n) 0
  let summary :=
    if details.isEmpty then
      "No routing changes detected."
    else
      details.foldl renderRouteDev
        ("Found routing changes on " ++
          toString affected_devices.length ++ " device(s):\n")
  ⟨QueryType.ROUTING_CHANGES, summary, affected_devices, details, total⟩

/-- `commands_changed` of a summary entry (sort key of
`get_change_summary`). -/
def summarySortKey (d : QueryDetail) : Nat :=
  match d with
  | .summaryEntry _ cc _ _ _ => cc
  | _ => 0

/-- `LogQueryEngine.get_change_summary` (`sorted(..., reverse=True)` is a
stable descending sort). -/
def get_change_summary (e : LogQueryEngine) : QueryResult :=
  let acc := e.device_diffs.foldl (fun acc hd =>
    if 0 < hd.2.commands_with_changes then
      (acc.1 ++ [hd.1], acc.2 ++ [QueryDetail.summaryEntry hd.1
        hd.2.commands_with_changes hd.2.total_commands hd.2.total_added
        hd.2.total_removed])
    else acc) (([], []) : List String × List QueryDetail)
  let affected_devices := acc.1
  let details := acc.2
  let total := affected_devices.length
  let base := "**Change Summary** (" ++ toString e.device_diffs.length ++
    " devices analyzed):\n\n"
  let summary :=
    if affected_devices.isEmpty then
      base ++ checkS ++ " No changes detected on any device."
    else
      (details.insertionSort (fun a b => summarySortKey b ≤ summarySortKey a)).foldl
        (fun s d =>
          match d with
          | .summaryEntry h cc tc la lr =>
            s ++ "\n**" ++ h ++ "**:\n" ++ bulletS ++ toString cc ++ "/" ++
              toString tc ++ " commands changed\n" ++ bulletS ++ "+" ++
              toString la ++ " added, -" ++ toString lr ++ " removed\n"
          | _ => s)
        (base ++ chartS ++ " " ++ toString total ++ " device(s) have changes:\n")
  ⟨QueryType.GENERAL_DIFF, summary, affected_devices, details, total⟩

/-- The bullet line `search_logs` renders per match. -/
def searchBullet (m : SearchMatch) : String :=
  bulletS ++ "[" ++ m.log_type ++ "] " ++ m.command ++ ": " ++
    pyTake 60 m.line ++ "...\n"

/-- One device section of the `search_logs` summary: at most 3 bullets, no
suffix. -/
def renderSearchDev (s : String) (d : QueryDetail) : String :=
  match d with
  | .searchList h ms =>
    renderItems searchBullet
      (s ++ "\n**" ++ h ++ "** (" ++ toString ms.length ++ " matches):\n")
      (ms.take 3)
  | _ => s

/-- Per-device collection step of `search_logs` (at most 20 matches are
kept per device). -/
def searchStep (term : String) (acc : List String × List QueryDetail)
    (hp : String × (Option DeviceLog × Option DeviceLog)) :
    List String × List QueryDetail :=
  let match_list := [(hp.2.1, "PRE"), (hp.2.2, "POST")].foldl (fun ms lp =>
    match lp.1 with
    | none => ms
    | some log =>
      log.commands.foldl (fun ms cmd =>
        if containsCI cmd.output term || containsCI cmd.command term then
          ms ++ ((splitOnNl cmd.output).filter (fun line =>
            containsCI line term)).map (fun line =>
              (⟨lp.2, cmd.command, pyTake 100 (pyStrip line)⟩ : SearchMatch))
        else ms) ms) ([] : List SearchMatch)
  if match_list.isEmpty then acc
  else (acc.1 ++ [hp.1],
    acc.2 ++ [QueryDetail.searchList hp.1 (match_list.take 20)])

/-- `LogQueryEngine.search_logs` (the summary renders the first 3 matches
of the first 5 devices). -/
def search_logs (e : LogQueryEngine) (search_term : String) : QueryResult :=
  let acc := e.device_logs.foldl (searchStep (pyStrip search_term)) ([], [])
  let affected_devices := acc.1
  let details := acc.2
  let total := details.foldl (fun n d =>
    match d with
    | .searchList _ ms => n + ms.length
    | _ => n) 0
  let summary :=
    if details.isEmpty then
      "No matches found for '" ++ search_term ++ "'."
    else
      (details.take 5).foldl renderSearchDev
        ("Found " ++ toString total ++ " match(es) for '" ++ search_term ++
          "' across " ++ toString affected_devices.length ++ " device(s):\n")
  ⟨QueryType.SEARCH, summary, affected_devices, details, total⟩

/-- `LogQueryEngine.query`: the keyword dispatcher. -/
def query (e : LogQueryEngine) (question : String) : QueryResult :=
  let question_lower := pyToLower question
  if containsAny question_lower ["interface", "port", "status"] then
    if containsAny question_lower ["down", "went down", "failed"] then
      find_interfaces_down e
    else if containsAny question_lower ["up", "came up", "enabled"] then
      find_interfaces_up e
    else
      find_interface_changes e
  else if containsAny question_lower ["bgp", "neighbor", "peer"] then
    find_bgp_changes e
  else if containsAny question_lower ["ospf", "routing protocol"] then
    find_ospf_changes e
  else if containsAny question_lower ["route", "routing"] then
    find_routing_changes e
  else if containsAny question_lower ["error", "fail", "problem", "issue"] then
    find_errors e
  else if containsAny question_lower ["vlan", "switch"] then
    find_vlan_changes e
  else if containsAny question_lower ["config", "configuration", "running"] then
    find_config_changes e
  else if containsAny question_lower ["change", "differ", "impact", "affect"] then
    get_change_summary e
  else
    search_logs e question

/-! ## Claim theorems: diff engine -/

/-- C5: for every command name and every text `x`, diffing `x` against
itself yields `addedLines = 0`, `removedLines = 0` and `hasChanges = false`
— for every masking configuration, since both sides are masked by the same
function. -/
theorem claim_C5 (mask : String → String) (command x : String) :
    (generate_command_diff mask command x x).added_lines = 0 ∧
    (generate_command_diff mask command x x).removed_lines = 0 ∧
    (generate_command_diff mask command x x).has_changes = false := by
  have h := Difflib.counts_self (diffLines mask x)
  rw [generate_command_diff_added, generate_command_diff_removed,
    generate_command_diff_hasChanges]
  unfold cmdDiffAdded cmdDiffRemoved
  rw [h.1, h.2]
  exact ⟨rfl, rfl, rfl⟩

/-- C1 (amended): a command diffed by the engine with an absent (empty) pre
side and non-empty output `s` yields `addedLines` = number of output lines
and `removedLines = 1` — the engine substitutes the one-line list `['']`
for the empty pre text, and that single empty sentinel line is emitted as
one removed line — and `hasChanges = true`.  (Identity masking; the
hypothesis excludes output lines starting with `++`, which the counting
loop misreads as `+++` header lines.) -/
theorem claim_C1 (command s : String) (hne : s ≠ "")
    (hpp : ∀ l ∈ splitLinesKeepS s, pyStartsWith l "++" = false) :
    (generate_command_diff id command "" s).added_lines =
      (splitLinesKeepS s).length ∧
    (generate_command_diff id command "" s).removed_lines = 1 ∧
    (generate_command_diff id command "" s).has_changes = true := by
  have hnl := splitLinesKeepS_lines_ne_empty s
  have hLne := splitLinesKeepS_ne_nil s hne
  have hcounts := Difflib.counts_empty_vs (splitLinesKeepS s) hLne hnl hpp
  have hpre : diffLines id "" = ([""] : List String) := rfl
  have hpost : diffLines id s = splitLinesKeepS s := by
    unfold diffLines
    rw [maskText_id]
    show (if (splitLinesKeepS s).isEmpty then [""] else splitLinesKeepS s) =
      splitLinesKeepS s
    rw [if_neg]
    intro hb
    exact hLne (List.isEmpty_iff.mp hb)
  rw [generate_command_diff_added, generate_command_diff_removed,
    generate_command_diff_hasChanges]
  unfold cmdDiffAdded cmdDiffRemoved
  rw [hpre, hpost, hcounts.1, hcounts.2]
  refine ⟨rfl, rfl, ?_⟩
  have hp : 0 < (splitLinesKeepS s).length := List.length_pos.mpr hLne
  simp [hp]

/-- Witness for C1 at the concrete output `"a\nb\n"` (2 lines). -/
theorem claim_C1_witness :
    ("a\nb\n" : String) ≠ "" ∧
    (∀ l ∈ splitLinesKeepS "a\nb\n", pyStartsWith l "++" = false) ∧
    (generate_command_diff id "show version" "" "a\nb\n").added_lines = 2 ∧
    (generate_command_diff id "show version" "" "a\nb\n").removed_lines = 1 ∧
    (generate_command_diff id "show version" "" "a\nb\n").has_changes = true := by
  have h := claim_C1 "show version" "a\nb\n" (by decide) (by decide)
  refine ⟨by decide, by decide, ?_, h.2.1, h.2.2⟩
  rw [h.1]
  decide

/-- Pre-capture for the C1 counterexample: no commands. -/
def c1PreLog : DeviceLog := ⟨"R1", "CHG1", LogType.pre, [], "pre.log"⟩

/-- Post-capture for the C1 counterexample: one command with a two-line
output, absent from the pre capture. -/
def c1PostLog : DeviceLog :=
  ⟨"R1", "CHG1", LogType.post,
    [⟨"show version", "line one\nline two\n", 1, 3⟩], "post.log"⟩

/-- C1 counterexample: in the device diff of `c1PreLog` vs `c1PostLog`, the
command `show version` is present only in the post capture with a non-empty
two-line output, yet its `CommandDiff` has `removedLines = 1`, not `0` as
the claim states (the empty pre side is rendered as one removed sentinel
line). -/
theorem claim_C1_counterexample :
    ((generate_device_diff id c1PreLog c1PostLog).command_diffs.map
      (fun cd => (cd.command, cd.added_lines, cd.removed_lines,
        cd.has_changes))) = [("show version", 2, 1, true)] ∧
    ¬((generate_device_diff id c1PreLog c1PostLog).command_diffs.map
      (fun cd => (cd.command, cd.added_lines, cd.removed_lines,
        cd.has_changes))) = [("show version", 2, 0, true)] := by
  constructor <;> decide

/-- C4: the command names of a device diff are strictly sorted, and they are
exactly the union of the command names of the two captures; `totalCommands`
is the size of that union. -/
theorem claim_C4 (mask : String → String) (pre_log post_log : DeviceLog) :
    ((generate_device_diff mask pre_log post_log).command_diffs.map
      (fun cd => cd.command)).Sorted (· < ·) ∧
    (∀ c, c ∈ (generate_device_diff mask pre_log post_log).command_diffs.map
        (fun cd => cd.command) ↔
      (c ∈ pre_log.commands.map CommandOutput.command ∨
       c ∈ post_log.commands.map CommandOutput.command)) ∧
    (generate_device_diff mask pre_log post_log).total_commands =
      ((pre_log.commands.map CommandOutput.command).toFinset ∪
       (post_log.commands.map CommandOutput.command).toFinset).card := by
  have hmapc : (generate_device_diff mask pre_log post_log).command_diffs.map
      (fun cd => cd.command) =
      ((odKeys (odOfList CommandOutput.command pre_log.commands) ++
        odKeys (odOfList CommandOutput.command post_log.commands)).dedup).insertionSort
        (· ≤ ·) := by
    rw [show (generate_device_diff mask pre_log post_log).command_diffs =
      (((odKeys (odOfList CommandOutput.command pre_log.commands) ++
        odKeys (odOfList CommandOutput.command post_log.commands)).dedup).insertionSort
        (· ≤ ·)).map (fun command => generate_command_diff mask command
          (match odGet (odOfList CommandOutput.command pre_log.commands) command with
           | some c => c.output
           | none => "")
          (match odGet (odOfList CommandOutput.command post_log.commands) command with
           | some c => c.output
           | none => "")) from rfl]
    rw [List.map_map]
    exact List.map_id'' (fun x => rfl) _
  have hperm := List.perm_insertionSort (α := String) (· ≤ ·)
    ((odKeys (odOfList CommandOutput.command pre_log.commands) ++
      odKeys (odOfList CommandOutput.command post_log.commands)).dedup)
  have hnodup : (((odKeys (odOfList CommandOutput.command pre_log.commands) ++
      odKeys (odOfList CommandOutput.command post_log.commands)).dedup).insertionSort
        (· ≤ ·)).Nodup :=
    hperm.nodup_iff.mpr (List.nodup_dedup _)
  have hmem : ∀ c, c ∈ ((odKeys (odOfList CommandOutput.command pre_log.commands) ++
      odKeys (odOfList CommandOutput.command post_log.commands)).dedup).insertionSort
        (· ≤ ·) ↔
      (c ∈ pre_log.commands.map CommandOutput.command ∨
       c ∈ post_log.commands.map CommandOutput.command) := by
    intro c
    rw [hperm.mem_iff, List.mem_dedup, List.mem_append,
      mem_odKeys_odOfList, mem_odKeys_odOfList]
  refine ⟨?_, ?_, ?_⟩
  · rw [hmapc]
    exact (List.sorted_insertionSort (· ≤ ·) _).lt_of_le hnodup
  · intro c
    rw [hmapc]
    exact hmem c
  · show (((odKeys (odOfList CommandOutput.command pre_log.commands) ++
        odKeys (odOfList CommandOutput.command post_log.commands)).dedup).insertionSort
        (· ≤ ·)).length = _
    rw [hperm.length_eq]
    rw [← List.card_toFinset]
    congr 1
    apply Finset.ext
    intro c
    rw [List.mem_toFinset, Finset.mem_union, List.mem_toFinset, List.mem_toFinset,
      List.mem_append, mem_odKeys_odOfList, mem_odKeys_odOfList]

/-- C10: when a command name occurs more than once in a capture, the parser
lookup `get_command_by_name` returns the first record whose trimmed name
matches, while the name-indexed dict built by
`DiffGenerator.generate_device_diff` (`{cmd.command: cmd for cmd in
commands}`) retains the last occurrence. -/
theorem claim_C10 (hostname chg fp : String) (lt : LogType)
    (l₁ l₂ l₃ : List CommandOutput) (c₁ c₂ : CommandOutput)
    (hname : c₂.command = c₁.command)
    (hl₁ : ∀ x ∈ l₁, ¬(pyStrip x.command = pyStrip c₁.command))
    (hl₃ : ∀ x ∈ l₃, ¬(x.command = c₁.command)) :
    DeviceLog.get_command_by_name
      ⟨hostname, chg, lt, l₁ ++ c₁ :: l₂ ++ c₂ :: l₃, fp⟩ c₁.command = some c₁ ∧
    odGet (odOfList CommandOutput.command (l₁ ++ c₁ :: l₂ ++ c₂ :: l₃))
      c₁.command = some c₂ := by
  constructor
  · unfold DeviceLog.get_command_by_name
    show (l₁ ++ c₁ :: l₂ ++ c₂ :: l₃).find?
      (fun cmd => pyStrip cmd.command == pyStrip c₁.command) = some c₁
    have h1 : l₁.find? (fun cmd => pyStrip cmd.command == pyStrip c₁.command) = none :=
      List.find?_eq_none.mpr (fun x hx => by simpa using hl₁ x hx)
    rw [List.find?_append, List.find?_append, h1, Option.none_or, List.find?_cons]
    simp
  · rw [odGet_odOfList_eq_last]
    have hrev : (l₁ ++ c₁ :: l₂ ++ c₂ :: l₃).reverse =
        l₃.reverse ++ c₂ :: (l₂.reverse ++ c₁ :: l₁.reverse) := by
      simp
    have h3 : l₃.reverse.find? (fun x => x.command == c₁.command) = none :=
      List.find?_eq_none.mpr (fun x hx => by
        simpa using hl₃ x (List.mem_reverse.mp hx))
    rw [hrev, List.find?_append, h3, Option.none_or, List.find?_cons, hname]
    simp

/-- Witness for C10: a two-record capture with the same command name. -/
theorem claim_C10_witness :
    DeviceLog.get_command_by_name
      ⟨"R1", "CHG1", LogType.pre,
        [] ++ (⟨"show run", "A", 1, 2⟩ : CommandOutput) :: [] ++
          (⟨"show run", "B", 3, 4⟩ : CommandOutput) :: [], "f.log"⟩
      (⟨"show run", "A", 1, 2⟩ : CommandOutput).command =
      some ⟨"show run", "A", 1, 2⟩ ∧
    odGet (odOfList CommandOutput.command
        ([] ++ (⟨"show run", "A", 1, 2⟩ : CommandOutput) :: [] ++
          (⟨"show run", "B", 3, 4⟩ : CommandOutput) :: []))
      (⟨"show run", "A", 1, 2⟩ : CommandOutput).command =
      some ⟨"show run", "B", 3, 4⟩ :=
  claim_C10 "R1" "CHG1" "f.log" LogType.pre [] [] []
    ⟨"show run", "A", 1, 2⟩ ⟨"show run", "B", 3, 4⟩
    (by decide) (by intro x hx; exact absurd hx (List.not_mem_nil x))
    (by intro x hx; exact absurd hx (List.not_mem_nil x))

/-! ## Facts about the query summaries -/

theorem string_data_append (s t : String) : (s ++ t).data = s.data ++ t.data := rfl

theorem listContainsSub_append_right (x s t : List Char)
    (h : listContainsSub x t = true) : listContainsSub x (s ++ t) = true := by
  induction s with
  | nil => exact h
  | cons c rest ih =>
    rw [List.cons_append]
    simp only [listContainsSub, Bool.or_eq_true]
    right
    exact ih

theorem listContainsSub_append_left (x s t : List Char)
    (h : listContainsSub x s = true) : listContainsSub x (s ++ t) = true := by
  induction s with
  | nil =>
    have hx : x = [] := by
      cases x with
      | nil => rfl
      | cons c cs => simp [listContainsSub] at h
    subst hx
    cases t with
    | nil => rfl
    | cons c cs => simp [listContainsSub, List.isPrefixOf]
  | cons c rest ih =>
    rw [List.cons_append]
    simp only [listContainsSub, Bool.or_eq_true] at h ⊢
    rcases h with h1 | h2
    · left
      have h1' : x <+: c :: rest := List.isPrefixOf_iff_prefix.mp h1
      have h2' : x <+: (c :: rest) ++ t := h1'.trans (List.prefix_append _ _)
      rw [List.cons_append] at h2'
      exact List.isPrefixOf_iff_prefix.mpr h2'
    · right
      exact ih h2

theorem listContainsSub_self (x : List Char) : listContainsSub x x = true := by
  cases x with
  | nil => rfl
  | cons c cs =>
    simp only [listContainsSub, Bool.or_eq_true]
    left
    exact List.isPrefixOf_iff_prefix.mpr (List.prefix_refl _)

theorem containsSub_append_of_right (s t x : String)
    (h : containsSub t x = true) : containsSub (s ++ t) x = true := by
  unfold containsSub at h ⊢
  rw [string_data_append]
  exact listContainsSub_append_right _ _ _ h

theorem containsSub_append_of_left (s t x : String)
    (h : containsSub s x = true) : containsSub (s ++ t) x = true := by
  unfold containsSub at h ⊢
  rw [string_data_append]
  exact listContainsSub_append_left _ _ _ h

theorem containsSub_refl (x : String) : containsSub x x = true :=
  listContainsSub_self x.data

theorem renderDownIface_fold_preserves (l : List IfaceFinding) (s x : String)
    (h : containsSub s x = true) :
    containsSub (l.foldl renderDownIface s) x = true := by
  induction l generalizing s with
  | nil => exact h
  | cons i rest ih => exact ih _ (containsSub_append_of_left _ _ _ h)

theorem renderDownIface_fold_contains (l : List IfaceFinding)
    (i : IfaceFinding) :
    i ∈ l → ∀ s, containsSub (l.foldl renderDownIface s) (downBullet i) = true := by
  induction l with
  | nil => intro hi; exact absurd hi (List.not_mem_nil i)
  | cons j rest ih =>
    intro hi s
    rcases List.mem_cons.mp hi with rfl | hmem
    · exact renderDownIface_fold_preserves rest _ _
        (containsSub_append_of_right _ _ _ (containsSub_refl _))
    · exact ih hmem _

theorem renderDownDev_preserves (d : QueryDetail) (s x : String)
    (h : containsSub s x = true) :
    containsSub (renderDownDev s d) x = true := by
  cases d
  case ifaceList hn ifs =>
    exact renderDownIface_fold_preserves ifs _ _
      (containsSub_append_of_left _ _ _ (containsSub_append_of_left _ _ _
        (containsSub_append_of_left _ _ _ h)))
  all_goals exact h

theorem renderDownDev_fold_preserves (ds : List QueryDetail) (s x : String)
    (h : containsSub s x = true) :
    containsSub (ds.foldl renderDownDev s) x = true := by
  induction ds generalizing s with
  | nil => exact h
  | cons d rest ih => exact ih _ (renderDownDev_preserves d _ _ h)

theorem renderDownDev_fold_contains (ds : List QueryDetail)
    (hn : String) (ifs : List IfaceFinding) :
    QueryDetail.ifaceList hn ifs ∈ ds →
    ∀ i ∈ ifs, ∀ s,
      containsSub (ds.foldl renderDownDev s) (downBullet i) = true := by
  induction ds with
  | nil => intro hd; exact absurd hd (List.not_mem_nil _)
  | cons d rest ih =>
    intro hd i hi s
    rcases List.mem_cons.mp hd with rfl | hmem
    · exact renderDownDev_fold_preserves rest _ _
        (renderDownIface_fold_contains ifs i hi _)
    · exact ih hmem i hi _

/-- `find_errors` keeps at most 10 findings per device detail. -/
theorem errStep_fold_bound
    (l : List (String × (Option DeviceLog × Option DeviceLog))) :
    ∀ acc : List String × List QueryDetail,
      (∀ h errs, QueryDetail.errorList h errs ∈ acc.2 → errs.length ≤ 10) →
      ∀ h errs, QueryDetail.errorList h errs ∈ (l.foldl errStep acc).2 →
        errs.length ≤ 10 := by
  induction l with
  | nil => exact fun acc hacc => hacc
  | cons hp rest ih =>
    intro acc hacc
    apply ih
    intro h errs hmem
    unfold errStep at hmem
    split at hmem
    · dsimp only at hmem
      split at hmem
      · exact hacc h errs hmem
      · rcases List.mem_append.mp hmem with hmem | hmem
        · exact hacc h errs hmem
        · have heq := List.mem_singleton.mp hmem
          injection heq with h1 h2
          subst h2
          exact List.length_take_le _ _
    · exact hacc h errs hmem

theorem renderItems_preserves {α : Type} (bullet : α → String) (l : List α)
    (s x : String) (h : containsSub s x = true) :
    containsSub (renderItems bullet s l) x = true := by
  induction l generalizing s with
  | nil => exact h
  | cons a rest ih => exact ih _ (containsSub_append_of_left _ _ _ h)

theorem renderItems_contains {α : Type} (bullet : α → String) (l : List α)
    (a : α) :
    a ∈ l → ∀ s, containsSub (renderItems bullet s l) (bullet a) = true := by
  induction l with
  | nil => intro ha; exact absurd ha (List.not_mem_nil a)
  | cons b rest ih =>
    intro ha s
    rcases List.mem_cons.mp ha with rfl | hmem
    · exact renderItems_preserves _ rest _ _
        (containsSub_append_of_right _ _ _ (containsSub_refl _))
    · exact ih hmem _

/-- A string ends, up to association, with the last three appended pieces. -/
theorem containsSub_tail3 (r a n m : String) :
    containsSub (r ++ a ++ n ++ m) (a ++ n ++ m) = true := by
  unfold containsSub
  show listContainsSub ((a.data ++ n.data) ++ m.data)
    (((r.data ++ a.data) ++ n.data) ++ m.data) = true
  rw [List.append_assoc r.data, List.append_assoc r.data]
  exact listContainsSub_append_right _ _ _ (listContainsSub_self _)

/-- A device-section renderer that keeps substrings keeps them through the
whole summary fold. -/
theorem foldl_dev_preserves (f : String → QueryDetail → String)
    (hf : ∀ s d x, containsSub s x = true → containsSub (f s d) x = true)
    (ds : List QueryDetail) (s x : String) (h : containsSub s x = true) :
    containsSub (ds.foldl f s) x = true := by
  induction ds generalizing s with
  | nil => exact h
  | cons d rest ih => exact ih _ (hf _ _ _ h)

/-- If one device's section carries the text and every section keeps
substrings, the whole summary fold carries it. -/
theorem foldl_dev_contains (f : String → QueryDetail → String)
    (hf : ∀ s d x, containsSub s x = true → containsSub (f s d) x = true)
    (ds : List QueryDetail) (d0 : QueryDetail) (x : String)
    (hhit : ∀ s, containsSub (f s d0) x = true) :
    d0 ∈ ds → ∀ s, containsSub (ds.foldl f s) x = true := by
  induction ds with
  | nil => intro hd; exact absurd hd (List.not_mem_nil d0)
  | cons d rest ih =>
    intro hd s
    rcases List.mem_cons.mp hd with rfl | hmem
    · exact foldl_dev_preserves f hf rest _ _ (hhit s)
    · exact ih hmem _

theorem renderChangesDev_preserves (d : QueryDetail) (s x : String)
    (h : containsSub s x = true) :
    containsSub (renderChangesDev s d) x = true := by
  cases d
  case ifaceChanges hn cs tc =>
    dsimp only [renderChangesDev]
    split
    · repeat apply containsSub_append_of_left
      apply renderItems_preserves
      repeat apply containsSub_append_of_left
      exact h
    · apply renderItems_preserves
      repeat apply containsSub_append_of_left
      exact h
  all_goals exact h

theorem renderErrDev_preserves (d : QueryDetail) (s x : String)
    (h : containsSub s x = true) :
    containsSub (renderErrDev s d) x = true := by
  cases d
  case errorList hn errs =>
    dsimp only [renderErrDev]
    apply renderItems_preserves
    repeat apply containsSub_append_of_left
    exact h
  all_goals exact h

theorem renderBgpDev_preserves (d : QueryDetail) (s x : String)
    (h : containsSub s x = true) :
    containsSub (renderBgpDev s d) x = true := by
  cases d
  case bgpList hn cs =>
    dsimp only [renderBgpDev]
    apply renderItems_preserves
    repeat apply containsSub_append_of_left
    exact h
  all_goals exact h

theorem renderOspfDev_preserves (d : QueryDetail) (s x : String)
    (h : containsSub s x = true) :
    containsSub (renderOspfDev s d) x = true := by
  cases d
  case ospfList hn cs =>
    dsimp only [renderOspfDev]
    apply renderItems_preserves
    repeat apply containsSub_append_of_left
    exact h
  all_goals exact h

theorem renderVlanDev_preserves (d : QueryDetail) (s x : String)
    (h : containsSub s x = true) :
    containsSub (renderVlanDev s d) x = true := by
  cases d
  case vlanList hn cs =>
    dsimp only [renderVlanDev]
    apply renderItems_preserves
    repeat apply containsSub_append_of_left
    exact h
  all_goals exact h

theorem renderCfgDev_preserves (d : QueryDetail) (s x : String)
    (h : containsSub s x = true) :
    containsSub (renderCfgDev s d) x = true := by
  cases d
  case cfgList hn cs =>
    dsimp only [renderCfgDev]
    apply renderItems_preserves
    repeat apply containsSub_append_of_left
    exact h
  all_goals exact h

theorem renderRouteDev_preserves (d : QueryDetail) (s x : String)
    (h : containsSub s x = true) :
    containsSub (renderRouteDev s d) x = true := by
  cases d
  case cfgList hn cs =>
    dsimp only [renderRouteDev]
    apply renderItems_preserves
    repeat apply containsSub_append_of_left
    exact h
  all_goals exact h

theorem renderSearchDev_preserves (d : QueryDetail) (s x : String)
    (h : containsSub s x = true) :
    containsSub (renderSearchDev s d) x = true := by
  cases d
  case searchList hn ms =>
    dsimp only [renderSearchDev]
    apply renderItems_preserves
    repeat apply containsSub_append_of_left
    exact h
  all_goals exact h

theorem renderChangesDev_bullet (hn : String) (cs : List IfaceChange)
    (tc : Nat) (c : IfaceChange) (hc : c ∈ cs.take 5) (s : String) :
    containsSub (renderChangesDev s (QueryDetail.ifaceChanges hn cs tc))
      (chgBullet c) = true := by
  dsimp only [renderChangesDev]
  split
  · repeat apply containsSub_append_of_left
    exact renderItems_contains chgBullet (cs.take 5) c hc _
  · exact renderItems_contains chgBullet (cs.take 5) c hc _

theorem renderChangesDev_more (hn : String) (cs : List IfaceChange)
    (tc : Nat) (htc : 5 < tc) (s : String) :
    containsSub (renderChangesDev s (QueryDetail.ifaceChanges hn cs tc))
      ("  ... and " ++ toString (tc - 5) ++ " more\n") = true := by
  dsimp only [renderChangesDev]
  rw [if_pos htc]
  exact containsSub_tail3 _ _ _ _

/-- `search_logs` keeps at most 20 matches per device detail. -/
theorem searchStep_fold_bound (term : String)
    (l : List (String × (Option DeviceLog × Option DeviceLog))) :
    ∀ acc : List String × List QueryDetail,
      (∀ h ms, QueryDetail.searchList h ms ∈ acc.2 → ms.length ≤ 20) →
      ∀ h ms, QueryDetail.searchList h ms ∈ (l.foldl (searchStep term) acc).2 →
        ms.length ≤ 20 := by
  induction l with
  | nil => exact fun acc hacc => hacc
  | cons hp rest ih =>
    intro acc hacc
    apply ih
    intro h ms hmem
    unfold searchStep at hmem
    dsimp only at hmem
    split at hmem
    · exact hacc h ms hmem
    · rcases List.mem_append.mp hmem with hmem | hmem
      · exact hacc h ms hmem
      · have heq := List.mem_singleton.mp hmem
        injection heq with h1 h2
        subst h2
        exact List.length_take_le _ _

/-- Every interfaces-down finding's bullet line appears in the summary (no
per-device truncation, no suffix mechanism exists in this renderer). -/
theorem find_interfaces_down_bullet (e : LogQueryEngine) (hn : String)
    (ifs : List IfaceFinding)
    (hmem : QueryDetail.ifaceList hn ifs ∈ (find_interfaces_down e).details)
    (i : IfaceFinding) (hi : i ∈ ifs) :
    containsSub (find_interfaces_down e).summary (downBullet i) = true := by
  have hmem' : QueryDetail.ifaceList hn ifs ∈
      (e.device_logs.foldl downStep ([], [])).2 := hmem
  have hne : ((e.device_logs.foldl downStep ([], [])).2).isEmpty = false := by
    cases hh : (e.device_logs.foldl downStep ([], [])).2 with
    | nil => rw [hh] at hmem'; exact absurd hmem' (List.not_mem_nil _)
    | cons a l => rfl
  unfold find_interfaces_down
  dsimp only
  rw [hne, if_neg Bool.false_ne_true]
  exact foldl_dev_contains renderDownDev
    (fun s d x h => renderDownDev_preserves d s x h) _
    (QueryDetail.ifaceList hn ifs) (downBullet i)
    (fun s => renderDownIface_fold_contains ifs i hi _) hmem' _

/-- Every interfaces-up finding's bullet line appears in the summary. -/
theorem find_interfaces_up_bullet (e : LogQueryEngine) (hn : String)
    (ifs : List IfaceFinding)
    (hmem : QueryDetail.ifaceList hn ifs ∈ (find_interfaces_up e).details)
    (i : IfaceFinding) (hi : i ∈ ifs) :
    containsSub (find_interfaces_up e).summary (downBullet i) = true := by
  have hmem' : QueryDetail.ifaceList hn ifs ∈
      (e.device_logs.foldl upStep ([], [])).2 := hmem
  have hne : ((e.device_logs.foldl upStep ([], [])).2).isEmpty = false := by
    cases hh : (e.device_logs.foldl upStep ([], [])).2 with
    | nil => rw [hh] at hmem'; exact absurd hmem' (List.not_mem_nil _)
    | cons a l => rfl
  unfold find_interfaces_up
  dsimp only
  rw [hne, if_neg Bool.false_ne_true]
  exact foldl_dev_contains renderDownDev
    (fun s d x h => renderDownDev_preserves d s x h) _
    (QueryDetail.ifaceList hn ifs) (downBullet i)
    (fun s => renderDownIface_fold_contains ifs i hi _) hmem' _

/-- Each of a device's first 5 interface changes is rendered into the
`find_interface_changes` summary. -/
theorem find_interface_changes_bullet (e : LogQueryEngine) (hn : String)
    (cs : List IfaceChange) (tc : Nat)
    (hmem : QueryDetail.ifaceChanges hn cs tc ∈
      (find_interface_changes e).details)
    (c : IfaceChange) (hc : c ∈ cs.take 5) :
    containsSub (find_interface_changes e).summary (chgBullet c) = true := by
  have hmem' : QueryDetail.ifaceChanges hn cs tc ∈
      (e.device_logs.foldl chgStep ([], [])).2 := hmem
  have hne : ((e.device_logs.foldl chgStep ([], [])).2).isEmpty = false := by
    cases hh : (e.device_logs.foldl chgStep ([], [])).2 with
    | nil => rw [hh] at hmem'; exact absurd hmem' (List.not_mem_nil _)
    | cons a l => rfl
  unfold find_interface_changes
  dsimp only
  rw [hne, if_neg Bool.false_ne_true]
  exact foldl_dev_contains renderChangesDev
    (fun s d x h => renderChangesDev_preserves d s x h) _
    (QueryDetail.ifaceChanges hn cs tc) (chgBullet c)
    (renderChangesDev_bullet hn cs tc c hc) hmem' _

/-- A device with more than 5 interface changes gets an explicit
`... and N more` line in the `find_interface_changes` summary. -/
theorem find_interface_changes_more (e : LogQueryEngine) (hn : String)
    (cs : List IfaceChange) (tc : Nat)
    (hmem : QueryDetail.ifaceChanges hn cs tc ∈
      (find_interface_changes e).details)
    (htc : 5 < tc) :
    containsSub (find_interface_changes e).summary
      ("  ... and " ++ toString (tc - 5) ++ " more\n") = true := by
  have hmem' : QueryDetail.ifaceChanges hn cs tc ∈
      (e.device_logs.foldl chgStep ([], [])).2 := hmem
  have hne : ((e.device_logs.foldl chgStep ([], [])).2).isEmpty = false := by
    cases hh : (e.device_logs.foldl chgStep ([], [])).2 with
    | nil => rw [hh] at hmem'; exact absurd hmem' (List.not_mem_nil _)
    | cons a l => rfl
  unfold find_interface_changes
  dsimp only
  rw [hne, if_neg Bool.false_ne_true]
  exact foldl_dev_contains renderChangesDev
    (fun s d x h => renderChangesDev_preserves d s x h) _
    (QueryDetail.ifaceChanges hn cs tc)
    ("  ... and " ++ toString (tc - 5) ++ " more\n")
    (renderChangesDev_more hn cs tc htc) hmem' _

/-- Each of a device's first 5 stored error findings is rendered into the
`find_errors` summary. -/
theorem find_errors_bullet (e : LogQueryEngine) (hn : String)
    (errs : List ErrFinding)
    (hmem : QueryDetail.errorList hn errs ∈ (find_errors e).details)
    (er : ErrFinding) (he : er ∈ errs.take 5) :
    containsSub (find_errors e).summary (errBullet er) = true := by
  have hmem' : QueryDetail.errorList hn errs ∈
      (e.device_logs.foldl errStep ([], [])).2 := hmem
  have hne : ((e.device_logs.foldl errStep ([], [])).2).isEmpty = false := by
    cases hh : (e.device_logs.foldl errStep ([], [])).2 with
    | nil => rw [hh] at hmem'; exact absurd hmem' (List.not_mem_nil _)
    | cons a l => rfl
  unfold find_errors
  dsimp only
  rw [hne, if_neg Bool.false_ne_true]
  exact foldl_dev_contains renderErrDev
    (fun s d x h => renderErrDev_preserves d s x h) _
    (QueryDetail.errorList hn errs) (errBullet er)
    (fun s => renderItems_contains errBullet (errs.take 5) er he _) hmem' _

/-- Every BGP change of a device is rendered into the summary. -/
theorem find_bgp_changes_bullet (e : LogQueryEngine) (hn : String)
    (cs : List BgpChange)
    (hmem : QueryDetail.bgpList hn cs ∈ (find_bgp_changes e).details)
    (c : BgpChange) (hc : c ∈ cs) :
    containsSub (find_bgp_changes e).summary (bgpBullet c) = true := by
  have hmem' : QueryDetail.bgpList hn cs ∈
      (e.device_logs.foldl bgpStep ([], [])).2 := hmem
  have hne : ((e.device_logs.foldl bgpStep ([], [])).2).isEmpty = false := by
    cases hh : (e.device_logs.foldl bgpStep ([], [])).2 with
    | nil => rw [hh] at hmem'; exact absurd hmem' (List.not_mem_nil _)
    | cons a l => rfl
  unfold find_bgp_changes
  dsimp only
  rw [hne, if_neg Bool.false_ne_true]
  exact foldl_dev_contains renderBgpDev
    (fun s d x h => renderBgpDev_preserves d s x h) _
    (QueryDetail.bgpList hn cs) (bgpBullet c)
    (fun s => renderItems_contains bgpBullet cs c hc _) hmem' _

/-- Every OSPF change of a device is rendered into the summary. -/
theorem find_ospf_changes_bullet (e : LogQueryEngine) (hn : String)
    (cs : List OspfChange)
    (hmem : QueryDetail.ospfList hn cs ∈ (find_ospf_changes e).details)
    (c : OspfChange) (hc : c ∈ cs) :
    containsSub (find_ospf_changes e).summary (ospfBullet c) = true := by
  have hmem' : QueryDetail.ospfList hn cs ∈
      (e.device_logs.foldl ospfStep ([], [])).2 := hmem
  have hne : ((e.device_logs.foldl ospfStep ([], [])).2).isEmpty = false := by
    cases hh : (e.device_logs.foldl ospfStep ([], [])).2 with
    | nil => rw [hh] at hmem'; exact absurd hmem' (List.not_mem_nil _)
    | cons a l => rfl
  unfold find_ospf_changes
  dsimp only
  rw [hne, if_neg Bool.false_ne_true]
  exact foldl_dev_contains renderOspfDev
    (fun s d x h => renderOspfDev_preserves d s x h) _
    (QueryDetail.ospfList hn cs) (ospfBullet c)
    (fun s => renderItems_contains ospfBullet cs c hc _) hmem' _

/-- Every VLAN change of a device is rendered into the summary. -/
theorem find_vlan_changes_bullet (e : LogQueryEngine) (hn : String)
    (cs : List VlanChange)
    (hmem : QueryDetail.vlanList hn cs ∈ (find_vlan_changes e).details)
    (c : VlanChange) (hc : c ∈ cs) :
    containsSub (find_vlan_changes e).summary (vlanBullet c) = true := by
  have hmem' : QueryDetail.vlanList hn cs ∈
      (e.device_logs.foldl vlanStep ([], [])).2 := hmem
  have hne : ((e.device_logs.foldl vlanStep ([], [])).2).isEmpty = false := by
    cases hh : (e.device_logs.foldl vlanStep ([], [])).2 with
    | nil => rw [hh] at hmem'; exact absurd hmem' (List.not_mem_nil _)
    | cons a l => rfl
  unfold find_vlan_changes
  dsimp only
  rw [hne, if_neg Bool.false_ne_true]
  exact foldl_dev_contains renderVlanDev
    (fun s d x h => renderVlanDev_preserves d s x h) _
    (QueryDetail.vlanList hn cs) (vlanBullet c)
    (fun s => renderItems_contains vlanBullet cs c hc _) hmem' _

/-- Every changed config command of a device is rendered into the summary. -/
theorem find_config_changes_bullet (e : LogQueryEngine) (hn : String)
    (cs : List CfgChange)
    (hmem : QueryDetail.cfgList hn cs ∈ (find_config_changes e).details)
    (c : CfgChange) (hc : c ∈ cs) :
    containsSub (find_config_changes e).summary (cfgBullet c) = true := by
  have hmem' : QueryDetail.cfgList hn cs ∈
      (e.device_diffs.foldl cfgStep ([], [])).2 := hmem
  have hne : ((e.device_diffs.foldl cfgStep ([], [])).2).isEmpty = false := by
    cases hh : (e.device_diffs.foldl cfgStep ([], [])).2 with
    | nil => rw [hh] at hmem'; exact absurd hmem' (List.not_mem_nil _)
    | cons a l => rfl
  unfold find_config_changes
  dsimp only
  rw [hne, if_neg Bool.false_ne_true]
  exact foldl_dev_contains renderCfgDev
    (fun s d x h => renderCfgDev_preserves d s x h) _
    (QueryDetail.cfgList hn cs) (cfgBullet c)
    (fun s => renderItems_contains cfgBullet cs c hc _) hmem' _

/-- Every changed routing command of a device is rendered into the summary. -/
theorem find_routing_changes_bullet (e : LogQueryEngine) (hn : String)
    (cs : List CfgChange)
    (hmem : QueryDetail.cfgList hn cs ∈ (find_routing_changes e).details)
    (c : CfgChange) (hc : c ∈ cs) :
    containsSub (find_routing_changes e).summary (routeBullet c) = true := by
  have hmem' : QueryDetail.cfgList hn cs ∈
      (e.device_diffs.foldl routeStep ([], [])).2 := hmem
  have hne : ((e.device_diffs.foldl routeStep ([], [])).2).isEmpty = false := by
    cases hh : (e.device_diffs.foldl routeStep ([], [])).2 with
    | nil => rw [hh] at hmem'; exact absurd hmem' (List.not_mem_nil _)
    | cons a l => rfl
  unfold find_routing_changes
  dsimp only
  rw [hne, if_neg Bool.false_ne_true]
  exact foldl_dev_contains renderRouteDev
    (fun s d x h => renderRouteDev_preserves d s x h) _
    (QueryDetail.cfgList hn cs) (routeBullet c)
    (fun s => renderItems_contains routeBullet cs c hc _) hmem' _

/-- For each of the first 5 matching devices, each of its first 3 matches
is rendered into the `search_logs` summary. -/
theorem search_logs_bullet (e : LogQueryEngine) (q : String) (hn : String)
    (ms : List SearchMatch)
    (hmem : QueryDetail.searchList hn ms ∈ ((search_logs e q).details.take 5))
    (m : SearchMatch) (hm : m ∈ ms.take 3) :
    containsSub (search_logs e q).summary (searchBullet m) = true := by
  have hmem' : QueryDetail.searchList hn ms ∈
      ((e.device_logs.foldl (searchStep (pyStrip q)) ([], [])).2).take 5 := hmem
  have hne : ((e.device_logs.foldl (searchStep (pyStrip q)) ([], [])).2).isEmpty
      = false := by
    have hmem2 := List.take_subset _ _ hmem'
    cases hh : (e.device_logs.foldl (searchStep (pyStrip q)) ([], [])).2 with
    | nil => rw [hh] at hmem2; exact absurd hmem2 (List.not_mem_nil _)
    | cons a l => rfl
  unfold search_logs
  dsimp only
  rw [hne, if_neg Bool.false_ne_true]
  exact foldl_dev_contains renderSearchDev
    (fun s d x h => renderSearchDev_preserves d s x h) _
    (QueryDetail.searchList hn ms) (searchBullet m)
    (fun s => renderItems_contains searchBullet (ms.take 3) m hm _) hmem' _

/-! ## Claim theorems: session cache -/

/-- C2 (amended): for a batch of session creations with fresh ids in which
no session exceeds the TTL, the cache still holds all 101 sessions — the
first one included — right after the 101st create (the capacity check runs
*before* the insert, so the cap is only enforced one create later): after
the 102nd create the very first session is evicted and exactly 101 remain. -/
theorem claim_C2 (L : List (String × String × Int))
    (hlen : L.length = MAX_SESSIONS + 2)
    (hnodup : (L.map Prod.fst).Nodup)
    (htime : ∀ c ∈ L, ∀ c' ∈ L, c'.2.2 - c.2.2 ≤ SESSION_TTL_SECONDS) :
    (createMany (L.take (MAX_SESSIONS + 1)) []).length = MAX_SESSIONS + 1 ∧
    odKeys (createMany (L.take (MAX_SESSIONS + 1)) []) =
      (L.map Prod.fst).take (MAX_SESSIONS + 1) ∧
    odKeys (createMany L []) = (L.map Prod.fst).drop 1 ∧
    (createMany L []).length = MAX_SESSIONS + 1 := by
  obtain ⟨T, c, rfl⟩ : ∃ T c, L = T ++ [c] := by
    rcases List.eq_nil_or_concat L with h | h
    · subst h; simp [MAX_SESSIONS] at hlen
    · obtain ⟨T, c, h⟩ := h
      exact ⟨T, c, by rw [h, List.concat_eq_append]⟩
  have hTlen : T.length = MAX_SESSIONS + 1 := by
    rw [List.length_append, List.length_singleton] at hlen
    omega
  have hnd := hnodup
  rw [List.map_append, List.nodup_append] at hnd
  have hnd_T : (T.map Prod.fst).Nodup := hnd.1
  have hc1 : c.1 ∉ T.map Prod.fst := fun hmem => hnd.2.2 hmem (by simp)
  have htime_T : ∀ x ∈ T, ∀ y ∈ T, y.2.2 - x.2.2 ≤ SESSION_TTL_SECONDS :=
    fun x hx y hy =>
      htime x (List.mem_append_left _ hx) y (List.mem_append_left _ hy)
  have hT : createMany T [] = T.map mkEntry :=
    createMany_eq T hnd_T (by omega) htime_T
  have htake : (T ++ [c]).take (MAX_SESSIONS + 1) = T := List.take_left' hTlen
  have hkeysT : odKeys (T.map mkEntry) = T.map Prod.fst := by
    unfold odKeys
    rw [List.map_map]
    rfl
  have hfil : (T.map mkEntry).filter (fun p => !sessionExpired c.2.2 p.2) =
      T.map mkEntry := by
    apply List.filter_eq_self.mpr
    intro p hp
    rcases List.mem_map.mp hp with ⟨x, hx, rfl⟩
    have hxc := htime x (List.mem_append_left _ hx) c
      (List.mem_append_right _ (by simp))
    simp [mkEntry, sessionExpired]
    omega
  have hlenM : (T.map mkEntry).length - MAX_SESSIONS = 1 := by
    rw [List.length_map]; omega
  have hany : ((T.map mkEntry).drop 1).any (fun p => p.1 == c.1) = false := by
    apply List.any_eq_false.mpr
    intro p hp
    have hp' : p ∈ T.map mkEntry := List.mem_of_mem_drop hp
    rcases List.mem_map.mp hp' with ⟨x, hx, rfl⟩
    simp only [mkEntry, beq_iff_eq]
    intro heq
    exact hc1 (heq ▸ List.mem_map_of_mem Prod.fst hx)
  have hfull : createMany (T ++ [c]) [] =
      (T.map mkEntry).drop 1 ++ [mkEntry c] := by
    rw [createMany_append, hT]
    unfold create_session cleanup_old_sessions
    rw [hfil]
    unfold popWhileOver
    rw [hlenM]
    unfold odInsert
    rw [if_neg (show ¬_ = true by rw [hany]; exact Bool.false_ne_true)]
    rfl
  refine ⟨?_, ?_, ?_, ?_⟩
  · rw [htake, hT, List.length_map, hTlen]
  · rw [htake, hT, hkeysT, List.map_append]
    rw [List.take_left' (show (T.map Prod.fst).length = MAX_SESSIONS + 1 by
      rw [List.length_map]; exact hTlen)]
  · rw [hfull]
    unfold odKeys
    rw [List.map_append, List.map_append]
    rw [List.drop_append_of_le_length (by rw [List.length_map]; omega)]
    rw [List.map_drop, List.map_map]
    rfl
  · rw [hfull]
    rw [List.length_append, List.length_drop, List.length_map,
      List.length_singleton, hTlen]
    omega

def c2L : List (String × String × Int) :=
  (List.range 102).map (fun i => ("s" ++ toString i, "CHG0001", (0 : Int)))

set_option maxRecDepth 40000 in
theorem claim_C2_witness :
    odKeys (createMany c2L []) = (c2L.map Prod.fst).drop 1 ∧
    (createMany c2L []).length = MAX_SESSIONS + 1 :=
  ⟨(claim_C2 c2L (by decide) (by decide) (by decide)).2.2.1,
   (claim_C2 c2L (by decide) (by decide) (by decide)).2.2.2⟩

def c2CexL : List (String × String × Int) :=
  (List.range 101).map (fun i => ("s" ++ toString i, "CHG0001", (0 : Int)))

set_option maxRecDepth 40000 in
theorem claim_C2_counterexample :
    (createMany c2CexL []).length = 101 ∧
    odGet (createMany c2CexL []) "s0" ≠ none := by
  decide

/-- C3 (amended to creation-only histories): after any batch of creates
with fresh ids, none expired and no eviction, `get_session_by_change`
returns the most recently created session whose change number matches (or
`none` if none matches).  The "regardless of any intervening getById
lookups" part of the claim fails: a `get_session` hit is moved to the end
of the very order the reverse scan walks. -/
theorem claim_C3 (L : List (String × String × Int)) (chg : String)
    (hnodup : (L.map Prod.fst).Nodup)
    (hlen : L.length ≤ MAX_SESSIONS)
    (htime : ∀ c ∈ L, ∀ c' ∈ L, c'.2.2 - c.2.2 ≤ SESSION_TTL_SECONDS) :
    get_session_by_change (createMany L []) chg =
      (L.reverse.find? (fun c => c.2.1 == chg)).map (fun c => (mkEntry c).2) := by
  rw [createMany_eq L hnodup (by omega) htime]
  unfold get_session_by_change
  rw [← List.map_reverse, List.find?_map, Option.map_map]
  rfl

theorem claim_C3_witness :
    get_session_by_change
        (createMany [("a", "CHG7", (0 : Int)), ("b", "CHG7", 5)] []) "CHG7" =
      some ⟨"b", "CHG7", 5, []⟩ := by
  have h := claim_C3 [("a", "CHG7", (0 : Int)), ("b", "CHG7", 5)] "CHG7"
    (by decide) (by decide) (by decide)
  rw [h]
  rfl

theorem claim_C3_counterexample :
    ((get_session_by_change
        ((get_session (create_session "b" "CHG7" 0
          (create_session "a" "CHG7" 0 [])) "a").2)
        "CHG7").map AnalysisSession.session_id = some "a") ∧
    ((get_session_by_change
        ((get_session (create_session "b" "CHG7" 0
          (create_session "a" "CHG7" 0 [])) "a").2)
        "CHG7").map AnalysisSession.session_id ≠ some "b") := by
  decide

/-- C8: an expired session (created more than the TTL before `now`) is
removed by the cleanup pass of any later create — even after an arbitrary
sequence of `get_session` accesses, which move entries to the end but never
touch `created_at`: afterwards it is absent from lookups, from
`list_sessions` and from `get_session`. -/
theorem claim_C8 (st : SessionState) (accesses : List String)
    (sid : String) (s : AnalysisSession) (now : Int) (newId newChg : String)
    (hnodup : (odKeys st).Nodup)
    (hwf : ∀ p ∈ st, p.2.session_id = p.1)
    (hmem : odGet st sid = some s)
    (hexp : SESSION_TTL_SECONDS < now - s.created_at)
    (hnew : newId ≠ sid) :
    odGet (create_session newId newChg now (applyGets accesses st)) sid = none ∧
    (∀ e ∈ list_sessions (create_session newId newChg now (applyGets accesses st)),
      e.1 ≠ sid) ∧
    (get_session (create_session newId newChg now (applyGets accesses st)) sid).1 =
      none := by
  obtain ⟨hperm, hget⟩ := applyGets_state accesses st hnodup
  have huniq : ∀ p ∈ st, p.1 = sid → p.2 = s := odGet_unique st sid s hnodup hmem
  have hclean : ∀ q ∈ cleanup_old_sessions now (applyGets accesses st),
      q.1 ≠ sid ∧ q.2.session_id ≠ sid := by
    intro q hq
    unfold cleanup_old_sessions popWhileOver at hq
    have hq1 : q ∈ (applyGets accesses st).filter
        (fun p => !sessionExpired now p.2) := List.mem_of_mem_drop hq
    rcases List.mem_filter.mp hq1 with ⟨hq2, hpred⟩
    have hq3 : q ∈ st := hperm.subset hq2
    have hnotexp : ¬q.2 = s := by
      intro hq2s
      rw [hq2s] at hpred
      simp [sessionExpired] at hpred
      omega
    refine ⟨fun hqs => hnotexp (huniq q hq3 hqs), fun hqs => ?_⟩
    exact hnotexp (huniq q hq3 (by rw [← hwf q hq3, hqs]))
  have hfin : ∀ p ∈ create_session newId newChg now (applyGets accesses st),
      p.1 ≠ sid ∧ p.2.session_id ≠ sid := by
    intro p hp
    unfold create_session odInsert at hp
    by_cases hany : (cleanup_old_sessions now (applyGets accesses st)).any
        (fun q => q.1 == newId) = true
    · rw [if_pos hany] at hp
      rcases List.mem_map.mp hp with ⟨q, hq, hpq⟩
      by_cases hqk : q.1 = newId
      · rw [← hpq, if_pos (by simp [hqk])]
        exact ⟨hnew, hnew⟩
      · rw [← hpq, if_neg (by simp [hqk])]
        exact hclean q hq
    · rw [if_neg hany] at hp
      rcases List.mem_append.mp hp with hq | hq
      · exact hclean p hq
      · rcases List.mem_singleton.mp hq with rfl
        exact ⟨hnew, hnew⟩
  have hnonef : (create_session newId newChg now (applyGets accesses st)).find?
      (fun p => p.1 == sid) = none := by
    apply List.find?_eq_none.mpr
    intro p hp
    simp only [beq_iff_eq]
    exact (hfin p hp).1
  refine ⟨?_, ?_, ?_⟩
  · unfold odGet
    rw [hnonef]
    rfl
  · intro e he
    unfold list_sessions at he
    rcases List.mem_map.mp he with ⟨p, hp, rfl⟩
    exact (hfin p hp).2
  · unfold get_session
    rw [hnonef]

theorem claim_C8_witness :
    odGet (create_session "new" "CHG9" 2000
      (applyGets ["old"] [("old", ⟨"old", "CHG8", 0, []⟩)])) "old" = none :=
  (claim_C8 [("old", ⟨"old", "CHG8", 0, []⟩)] ["old"] "old"
    ⟨"old", "CHG8", 0, []⟩ 2000 "new" "CHG9" (by decide) (by decide)
    (by decide) (by decide) (by decide)).1

/-! ## Claim theorems: query engine -/

def c6PreLog : DeviceLog :=
  parse_file
    "command: show ip interface brief\nGigabitEthernet0/1  1.1.1.1  YES  NVRAM  up  up"
    "R1" "CHG0002" LogType.pre "pre.log"

def c6PostLog : DeviceLog :=
  parse_file
    "command: show ip interface brief\nGigabitEthernet0/1  1.1.1.1  YES  NVRAM  down  down"
    "R1" "CHG0002" LogType.post "post.log"

def c6Engine : LogQueryEngine :=
  mkEngine [("R1", (some c6PreLog, some c6PostLog))] []

/-- C6: on the concrete scenario — pre capture of `R1` holding
`command: show ip interface brief` and an interface line ending `up  up`,
post capture the same line ending `down  down` — the query
"what interfaces went down?" routes to the interfaces-down finder and
reports exactly one finding, on device `R1`, for `GigabitEthernet0/1`,
with the went-down transition `up/up` to `down/down`. -/
theorem claim_C6 :
    (query c6Engine "what interfaces went down?").query_type =
      QueryType.INTERFACE_DOWN ∧
    (query c6Engine "what interfaces went down?").total_findings = 1 ∧
    (query c6Engine "what interfaces went down?").devices_affected = ["R1"] ∧
    (query c6Engine "what interfaces went down?").details =
      [QueryDetail.ifaceList "R1"
        [⟨"GigabitEthernet0/1", "up/up", "down/down"⟩]] := by
  decide

def c7PreText : String :=
  "command: show ip interface brief\n" ++
  "GigabitEthernet0/1  10.0.0.1  YES  NVRAM  up  up\n" ++
  "GigabitEthernet0/2  10.0.0.2  YES  NVRAM  up  up\n" ++
  "GigabitEthernet0/3  10.0.0.3  YES  NVRAM  up  up\n" ++
  "GigabitEthernet0/4  10.0.0.4  YES  NVRAM  up  up\n" ++
  "GigabitEthernet0/5  10.0.0.5  YES  NVRAM  up  up\n" ++
  "GigabitEthernet0/6  10.0.0.6  YES  NVRAM  up  up\n"

def c7PostText : String :=
  "command: show ip interface brief\n" ++
  "GigabitEthernet0/1  10.0.0.1  YES  NVRAM  down  down\n" ++
  "GigabitEthernet0/2  10.0.0.2  YES  NVRAM  down  down\n" ++
  "GigabitEthernet0/3  10.0.0.3  YES  NVRAM  down  down\n" ++
  "GigabitEthernet0/4  10.0.0.4  YES  NVRAM  down  down\n" ++
  "GigabitEthernet0/5  10.0.0.5  YES  NVRAM  down  down\n" ++
  "GigabitEthernet0/6  10.0.0.6  YES  NVRAM  down  down\n"

def c7Engine : LogQueryEngine :=
  mkEngine [("R1",
    (some (parse_file c7PreText "R1" "CHG0003" LogType.pre "pre.log"),
     some (parse_file c7PostText "R1" "CHG0003" LogType.post "post.log")))] []

def c7Downs : List IfaceFinding :=
  [⟨"GigabitEthernet0/1", "up/up", "down/down"⟩,
   ⟨"GigabitEthernet0/2", "up/up", "down/down"⟩,
   ⟨"GigabitEthernet0/3", "up/up", "down/down"⟩,
   ⟨"GigabitEthernet0/4", "up/up", "down/down"⟩,
   ⟨"GigabitEthernet0/5", "up/up", "down/down"⟩,
   ⟨"GigabitEthernet0/6", "up/up", "down/down"⟩]

/-- C7 (amended): the truncation behavior is per intent, not uniform.
Stored details: `find_errors` keeps at most 10 error findings per device
and `search_logs` at most 20 matches per device.  Rendering:
`find_interface_changes` renders a bullet line for each of a device's
first 5 changes and appends an explicit "... and N more" line for a device
with more than 5; `find_errors` renders a bullet line for each of a
device's first 5 stored errors and free-text search one for each of the
first 3 matches of each of the first 5 matching devices (no suffix); the
interfaces-down, interfaces-up, BGP, OSPF, VLAN, config and routing
summaries render a bullet line for every finding, untruncated. -/
theorem claim_C7 (e : LogQueryEngine) (q : String) :
    (∀ h errs, QueryDetail.errorList h errs ∈ (find_errors e).details →
      errs.length ≤ 10) ∧
    (∀ h ms, QueryDetail.searchList h ms ∈ (search_logs e q).details →
      ms.length ≤ 20) ∧
    (∀ h cs tc, QueryDetail.ifaceChanges h cs tc ∈
        (find_interface_changes e).details →
      (∀ c ∈ cs.take 5,
        containsSub (find_interface_changes e).summary (chgBullet c) = true) ∧
      (5 < tc → containsSub (find_interface_changes e).summary
        ("  ... and " ++ toString (tc - 5) ++ " more\n") = true)) ∧
    (∀ h errs, QueryDetail.errorList h errs ∈ (find_errors e).details →
      ∀ er ∈ errs.take 5,
        containsSub (find_errors e).summary (errBullet er) = true) ∧
    (∀ h ms, QueryDetail.searchList h ms ∈ ((search_logs e q).details.take 5) →
      ∀ m ∈ ms.take 3,
        containsSub (search_logs e q).summary (searchBullet m) = true) ∧
    (∀ h ifs, QueryDetail.ifaceList h ifs ∈ (find_interfaces_down e).details →
      ∀ i ∈ ifs,
        containsSub (find_interfaces_down e).summary (downBullet i) = true) ∧
    (∀ h ifs, QueryDetail.ifaceList h ifs ∈ (find_interfaces_up e).details →
      ∀ i ∈ ifs,
        containsSub (find_interfaces_up e).summary (downBullet i) = true) ∧
    (∀ h cs, QueryDetail.bgpList h cs ∈ (find_bgp_changes e).details →
      ∀ c ∈ cs,
        containsSub (find_bgp_changes e).summary (bgpBullet c) = true) ∧
    (∀ h cs, QueryDetail.ospfList h cs ∈ (find_ospf_changes e).details →
      ∀ c ∈ cs,
        containsSub (find_ospf_changes e).summary (ospfBullet c) = true) ∧
    (∀ h cs, QueryDetail.vlanList h cs ∈ (find_vlan_changes e).details →
      ∀ c ∈ cs,
        containsSub (find_vlan_changes e).summary (vlanBullet c) = true) ∧
    (∀ h cs, QueryDetail.cfgList h cs ∈ (find_config_changes e).details →
      ∀ c ∈ cs,
        containsSub (find_config_changes e).summary (cfgBullet c) = true) ∧
    (∀ h cs, QueryDetail.cfgList h cs ∈ (find_routing_changes e).details →
      ∀ c ∈ cs,
        containsSub (find_routing_changes e).summary (routeBullet c) = true) := by
  refine ⟨?_, ?_, ?_, ?_, ?_, ?_, ?_, ?_, ?_, ?_, ?_, ?_⟩
  · intro h errs hmem
    exact errStep_fold_bound e.device_logs ([], [])
      (fun h errs hm => absurd hm (List.not_mem_nil _)) h errs hmem
  · intro h ms hmem
    exact searchStep_fold_bound (pyStrip q) e.device_logs ([], [])
      (fun h ms hm => absurd hm (List.not_mem_nil _)) h ms hmem
  · intro h cs tc hmem
    exact ⟨fun c hc => find_interface_changes_bullet e h cs tc hmem c hc,
      fun htc => find_interface_changes_more e h cs tc hmem htc⟩
  · intro h errs hmem er he
    exact find_errors_bullet e h errs hmem er he
  · intro h ms hmem m hm
    exact search_logs_bullet e q h ms hmem m hm
  · intro h ifs hmem i hi
    exact find_interfaces_down_bullet e h ifs hmem i hi
  · intro h ifs hmem i hi
    exact find_interfaces_up_bullet e h ifs hmem i hi
  · intro h cs hmem c hc
    exact find_bgp_changes_bullet e h cs hmem c hc
  · intro h cs hmem c hc
    exact find_ospf_changes_bullet e h cs hmem c hc
  · intro h cs hmem c hc
    exact find_vlan_changes_bullet e h cs hmem c hc
  · intro h cs hmem c hc
    exact find_config_changes_bullet e h cs hmem c hc
  · intro h cs hmem c hc
    exact find_routing_changes_bullet e h cs hmem c hc

set_option maxRecDepth 40000 in
theorem claim_C7_witness :
    containsSub (find_interfaces_down c7Engine).summary
      (downBullet ⟨"GigabitEthernet0/6", "up/up", "down/down"⟩) = true :=
  (claim_C7 c7Engine "term").2.2.2.2.2.1 "R1" c7Downs (by decide)
    ⟨"GigabitEthernet0/6", "up/up", "down/down"⟩ (by decide)

set_option maxRecDepth 40000 in
theorem claim_C7_counterexample :
    (find_interfaces_down c7Engine).total_findings = 6 ∧
    containsSub (find_interfaces_down c7Engine).summary
      "GigabitEthernet0/6" = true ∧
    containsSub (find_interfaces_down c7Engine).summary "... and" = false := by
  decide

/-- C9: the query pipeline is a pure function of the engine inputs and the
question text — no timestamps, randomness or ambient state enter the
summary — so two invocations on equal `(device_logs, device_diffs,
question)` triples produce byte-identical summary text. -/
theorem claim_C9
    (logs₁ logs₂ : List (String × (Option DeviceLog × Option DeviceLog)))
    (diffs₁ diffs₂ : List DeviceDiff) (q₁ q₂ : String)
    (hl : logs₁ = logs₂) (hd : diffs₁ = diffs₂) (hq : q₁ = q₂) :
    (query (mkEngine logs₁ diffs₁) q₁).summary =
      (query (mkEngine logs₂ diffs₂) q₂).summary := by
  rw [hl, hd, hq]

theorem claim_C9_witness :
    (query (mkEngine [("R1", (none, none))] []) "any bgp changes?").summary =
      (query (mkEngine [("R1", (none, none))] []) "any bgp changes?").summary :=
  claim_C9 [("R1", (none, none))] [("R1", (none, none))] [] []
    "any bgp changes?" "any bgp changes?" rfl rfl rfl

end NetDiff
